import Mathlib

/-!
# Verification of `scraper/images_csv.py`

A shallow embedding, in Lean 4, of the pure computational core of the
image-scraper / WooCommerce-CSV exporter found in `src/scraper/images_csv.py`.

Python strings are modelled by Lean `String` (both are sequences of Unicode
code points).  Python regular-expression character classes (`\d`, `\s`, `\w`)
are modelled on their ASCII range, which is the range exercised by this
program (slugs, filenames and srcset descriptors are ASCII by construction).
Python `dict`s are modelled either by association lists (when insertion order
matters) or by functions `key → Option value` (when only lookup matters).
Network, filesystem and browser effects are modelled by explicit function
parameters and explicit state threading; every definition is executable.
-/

set_option maxRecDepth 100000

namespace ImagesCsv

/-! ## Python string primitives

All primitives recurse structurally over `String.data`, so that every
definition in this file evaluates inside the kernel (`decide`/`rfl`). -/

/-- Model of Python `str.strip()` (no argument): remove leading and trailing
whitespace. -/
def pyTrim (s : String) : String :=
  ⟨((s.data.dropWhile Char.isWhitespace).reverse.dropWhile
      Char.isWhitespace).reverse⟩

/-- Model of Python `str.endswith(suffix)`. -/
def pyEndsWith (s suffix : String) : Bool :=
  suffix.data.isSuffixOf s.data

/-- Model of the Python slice `s[:-n]` (for `n ≤ len(s)`): drop the last `n`
characters. -/
def pyDropRight (s : String) (n : Nat) : String :=
  ⟨s.data.take (s.data.length - n)⟩

/-- Splitter core for `str.split(sep)` with a nonempty separator: `k` skips
the tail of a just-matched separator, `acc` holds the current piece
reversed. -/
def splitGo (sep : List Char) : List Char → Nat → List Char → List (List Char)
  | [], _, acc => [acc.reverse]
  | _ :: cs, k + 1, acc => splitGo sep cs k acc
  | c :: cs, 0, acc =>
    if sep.isPrefixOf (c :: cs) ∧ sep ≠ [] then
      acc.reverse :: splitGo sep cs (sep.length - 1) []
    else splitGo sep cs 0 (c :: acc)

/-- Model of Python `str.split(sep)` for a nonempty separator: left-to-right,
non-overlapping, keeping empty pieces (`"a--b".split("-") = ["a","","b"]`,
`"".split("-") = [""]`). -/
def pySplit (s sep : String) : List String :=
  (splitGo sep.data s.data 0 []).map (fun l => ⟨l⟩)

/-- Replacement core for `str.replace(pat, rep)` with a nonempty pattern:
`k` skips the tail of a just-matched pattern. -/
def replaceGo (pat rep : List Char) : List Char → Nat → List Char
  | [], _ => []
  | _ :: cs, k + 1 => replaceGo pat rep cs k
  | c :: cs, 0 =>
    if pat.isPrefixOf (c :: cs) ∧ pat ≠ [] then
      rep ++ replaceGo pat rep cs (pat.length - 1)
    else c :: replaceGo pat rep cs 0

/-- Model of Python `str.replace(pat, rep)`: left-to-right non-overlapping
replacement; an empty pattern interleaves `rep` at every position, as Python
does. -/
def pyReplace (s pat rep : String) : String :=
  if pat = "" then ⟨rep.data ++ s.data.foldr (fun c acc => c :: rep.data ++ acc) []⟩
  else ⟨replaceGo pat.data rep.data s.data 0⟩

/-- Model of Python `sep.join(pieces)`. -/
def pyJoin (sep : String) : List String → String
  | [] => ""
  | [x] => x
  | x :: xs => x ++ sep ++ pyJoin sep xs

/-- Predicate splitter used by no-argument `str.split()`: split at every
character satisfying `p`, keeping empty pieces (filtered by the caller). -/
def splitPredGo (p : Char → Bool) : List Char → List Char → List (List Char)
  | [], acc => [acc.reverse]
  | c :: cs, acc =>
    if p c then acc.reverse :: splitPredGo p cs []
    else splitPredGo p cs (c :: acc)

/-- Digit run of a Python `int()` literal after an optional sign: one or more
ASCII digits, where a single underscore may separate two digits
(`int("1_0") = 10`, `int("1__0")` and `int("1_")` fail). `acc` holds the value
of the digits consumed so far. -/
def pyDigitsAux (acc : Nat) : List Char → Option Nat
  | [] => some acc
  | '_' :: c :: cs =>
      if c.isDigit then pyDigitsAux (acc * 10 + (c.toNat - 48)) cs else none
  | c :: cs =>
      if c.isDigit then pyDigitsAux (acc * 10 + (c.toNat - 48)) cs else none

/-- A full Python `int()` digit block: nonempty, leading digit required. -/
def pyDigits? : List Char → Option Nat
  | [] => none
  | c :: cs => if c.isDigit then pyDigitsAux (c.toNat - 48) cs else none

/-- Model of Python `int(s)` on strings: surrounding whitespace stripped,
optional sign, then a digit block.  `none` models the `ValueError`. -/
def pyInt? (s : String) : Option Int :=
  match (pyTrim s).data with
  | '+' :: cs => (pyDigits? cs).map (fun n => (n : Int))
  | '-' :: cs => (pyDigits? cs).map (fun n => -(n : Int))
  | cs => (pyDigits? cs).map (fun n => (n : Int))

/-- Model of Python `str.split()` with no separator: split on whitespace runs,
discarding empty pieces. -/
def pySplitWS (s : String) : List String :=
  ((splitPredGo Char.isWhitespace s.data []).map (fun l => (⟨l⟩ : String))).filter (fun t => t ≠ "")

/-- Decimal digit to character, for rendering numbers the way Python's
`str`/f-strings do. -/
def digitChar (d : Nat) : Char := Char.ofNat (48 + d)

/-- Big-endian decimal digits of `n > 0`, with structural fuel (`n` itself is
always enough fuel, the value shrinking by a factor of ten per step). -/
def decDigits : Nat → Nat → List Char
  | 0, _ => []
  | fuel + 1, n =>
    if n < 10 then [digitChar n]
    else decDigits fuel (n / 10) ++ [digitChar (n % 10)]

/-- Decimal rendering of a natural number (model of Python `str(n)` /
`f"{n}"`). -/
def decimalStr (n : Nat) : String :=
  if n = 0 then "0" else ⟨decDigits n n⟩

/-- Decimal rendering of an integer (model of Python `str(v)`). -/
def intStr (v : Int) : String :=
  if v < 0 then "-" ++ decimalStr v.natAbs else decimalStr v.natAbs

/-- Model of Python `f"{v:02d}"`: decimal rendering zero-padded to a total
width of two characters (the sign counts towards the width). -/
def pad02 (v : Int) : String :=
  let s := intStr v
  if s.length < 2 then "0" ++ s else s

/-- Python truthiness of an optional-string argument (`None` and `""` are
falsy). -/
def truthy : Option String → Bool
  | none => false
  | some s => s != ""

/-! ## `best_from_srcset` (lines 84-100) -/

/-- The `(url, size)` pairs parsed from a srcset attribute value, mirroring
the loop of lines 86-95: split on commas, strip each part, whitespace-split it
into tokens; skip empty parts; the first token is the url and, when a second
token ends in `w`, its numeric prefix is the size (an unparsable number, via
the `except`, and a missing `w` token both give size 0). -/
def srcsetPairs (v : String) : List (String × Int) :=
  (pySplit v ",").filterMap (fun p =>
    match pySplitWS (pyTrim p) with
    | [] => none
    | url :: rest =>
      let size : Int :=
        match rest with
        | [] => 0
        | w :: _ => if pyEndsWith w "w" then (pyInt? (pyDropRight w 1)).getD 0 else 0
      some (url, size))

/-- `best_from_srcset` of lines 84-100.  The source stable-sorts the pairs by
ascending size and returns `pairs[-1][0]`; the last element of a stable
ascending sort is the *last* pair attaining the maximal size, which is what
this left fold computes (on a tie `best.2 ≤ p.2` it moves to the later
pair `p`). -/
def best_from_srcset (v : String) : Option String :=
  match srcsetPairs v with
  | [] => none
  | q :: qs => some ((qs.foldl (fun best p => if best.2 ≤ p.2 then p else best) q).1)

/-! ## `build_prefixed_urls` (lines 488-508) -/

/-- `build_prefixed_urls` of lines 488-508.  Returns the association list
`local_name → full_url` built in input order (the source builds a `dict`; a
duplicated name receives the same value either way, since the value depends
only on the name).  The outer `Option` models the uncaught `ValueError` of
`int(month)` when year and month are truthy but the month is not a valid
integer literal. -/
def build_prefixed_urls (pref : String) (names : List String)
    (year month : Option String) : Option (List (String × String)) :=
  let base := if pyEndsWith pref "/" then pyDropRight pref 1 else pref
  let suffix? : Option String :=
    if truthy year && truthy month then
      (pyInt? (month.getD "")).map (fun mv => "/" ++ year.getD "" ++ "/" ++ pad02 mv)
    else some ""
  suffix?.map (fun suffix =>
    names.map (fun n => (n, if n = "" then "" else base ++ suffix ++ "/" ++ n)))

/-! ## Slug and filename utilities (lines 61-82) -/

/-- Python `str.strip(chars)`: remove leading and trailing characters drawn
from `chars`. -/
def pyStripChars (s : String) (chars : List Char) : String :=
  ⟨((s.data.dropWhile (fun c => chars.contains c)).reverse.dropWhile
      (fun c => chars.contains c)).reverse⟩

/-- Model of Python `str.lower()` on the character range this program meets:
ASCII letters plus the accented Latin-1 letters (offset 32, excluding `×`). -/
def pyLowerChar (c : Char) : Char :=
  if 'A' ≤ c ∧ c ≤ 'Z' then Char.ofNat (c.toNat + 32)
  else if ('À' ≤ c ∧ c ≤ 'Þ') ∧ c ≠ '×' then Char.ofNat (c.toNat + 32)
  else c

/-- Composite model of `.lower()` followed by NFKD normalisation and removal
of combining marks (lines 62-64), on ASCII plus the accented Latin-1 letters
this French-oriented program meets.  Characters outside that range either
have no NFKD decomposition or never occur here; they are returned unchanged
and are swallowed by the `[^a-z0-9]+` replacement of line 65 exactly as in
the source. -/
def deaccentLower (c : Char) : Char :=
  if 'A' ≤ c ∧ c ≤ 'Z' then Char.ofNat (c.toNat + 32)
  else if ['À','Á','Â','Ã','Ä','Å','à','á','â','ã','ä','å'].contains c then 'a'
  else if ['Ç','ç'].contains c then 'c'
  else if ['È','É','Ê','Ë','è','é','ê','ë'].contains c then 'e'
  else if ['Ì','Í','Î','Ï','ì','í','î','ï'].contains c then 'i'
  else if ['Ñ','ñ'].contains c then 'n'
  else if ['Ò','Ó','Ô','Õ','Ö','ò','ó','ô','õ','ö'].contains c then 'o'
  else if ['Ù','Ú','Û','Ü','ù','ú','û','ü'].contains c then 'u'
  else if ['Ý','ý','ÿ'].contains c then 'y'
  else c

/-- Collapse every run of the character `t` to a single occurrence. -/
def collapseRuns (t : Char) (l : List Char) : List Char :=
  l.foldr (fun c acc =>
    match acc with
    | [] => [c]
    | d :: _ => if c == t && d == t then acc else c :: acc) []

/-- Characters kept by the slug regex `[^a-z0-9]+` of line 65. -/
def isSlugChar (c : Char) : Bool :=
  ('a' ≤ c && c ≤ 'z') || ('0' ≤ c && c ≤ '9')

/-- `slugify` of lines 61-67: strip, lower, deaccent, replace each run of
non-`[a-z0-9]` characters by a single hyphen (the two `re.sub`s of lines
65-66), trim hyphens; an empty result becomes `"produit"`. -/
def slugify (s : String) : String :=
  let cs := ((pyTrim s).data).map deaccentLower
  let marked := cs.map (fun c => if isSlugChar c then c else '-')
  let trimmed := pyStripChars ⟨collapseRuns '-' marked⟩ ['-']
  if trimmed = "" then "produit" else trimmed

/-- `strip_trailing_number` of lines 81-82: `re.sub(r"-\d+$", "", base)`. -/
def strip_trailing_number (base : String) : String :=
  let rev := base.data.reverse
  let ds := rev.takeWhile (fun c => c.isDigit)
  match ds, rev.drop ds.length with
  | _ :: _, '-' :: rest => ⟨rest.reverse⟩
  | _, _ => base

/-- Model of `os.path.splitext(p)[0]` for a separator-free basename: the part
before the suffix that starts at the last dot, unless every character before
that dot is itself a dot (CPython keeps `".bashrc"` whole). -/
def splitextRoot (s : String) : String :=
  let cs := s.data
  match cs.reverse.findIdx? (fun c => c == '.') with
  | none => s
  | some k =>
    let i := cs.length - 1 - k
    if (cs.take i).all (fun c => c == '.') then s else ⟨cs.take i⟩

/-! ## Color vocabulary and variant classification (lines 52-58, 357-434) -/

/-- `KNOWN_COLOR_SLUGS` of lines 52-57 (a Python set; modelled as a list,
membership being all that is used). -/
def KNOWN_COLOR_SLUGS : List String :=
  ["noir","blanc","beige","gris","jaune","rouge","rose",
   "bleu","bleu-fonce","bleu-clair","bleu-marine","marine",
   "vert","kaki","camel","marron","violet","orange",
   "bordeaux","ecru","taupe","dore","argent","imprime","multicolore"]

/-- `COLOR_STOPWORDS` of line 58. -/
def COLOR_STOPWORDS : List String :=
  ["bob","chapeau","casquette","bonnet","taille","unique","standard"]

/-- `SIZE_TOKENS` of line 358. -/
def SIZE_TOKENS : List String := ["m","l","xl","s","xs","xxl"]

/-- Python `str.capitalize()` (ASCII model): first character uppercased, the
rest lowered. -/
def pyCapitalize (w : String) : String :=
  match w.data with
  | [] => ""
  | c :: cs => ⟨c.toUpper :: cs.map Char.toLower⟩

/-- Python `str.title()` (ASCII model): a letter not preceded by a letter is
uppercased, other letters lowered. -/
def pyTitle (s : String) : String :=
  ⟨(s.data.foldl (fun (acc : List Char × Bool) c =>
      (acc.1 ++ [if c.isAlpha && !acc.2 then c.toUpper
                 else if c.isAlpha then c.toLower else c],
       c.isAlpha)) ([], false)).1⟩

/-- `prettify_color_label` of lines 360-363: hyphens to spaces, strip, lower,
the standalone word `fonce` accented to `foncé` (the `\bfonce\b` substitution:
on this program's hyphen-free slug-derived inputs, word boundaries coincide
with whitespace), then each word capitalised and space-joined. -/
def prettify_color_label (color_slug : String) : String :=
  let txt : String := ⟨((pyTrim (pyReplace color_slug "-" " ")).data).map pyLowerChar⟩
  let words := (pySplitWS txt).map (fun w => if w = "fonce" then "foncé" else w)
  pyJoin " " (words.map pyCapitalize)

/-- `re.fullmatch(r"\d+", t)`: nonempty, all ASCII digits. -/
def isNumTok (t : String) : Bool :=
  t != "" && t.data.all (fun c => c.isDigit)

/-- `re.fullmatch(r"\d+cm", t)`. -/
def isNumCmTok (t : String) : Bool :=
  pyEndsWith t "cm" && isNumTok (pyDropRight t 2)

/-- `extract_color_from_filename` of lines 365-377.  The loop of lines
372-375 collects tokens until its first `break`; the two `break` conditions
are reproduced verbatim in the `takeWhile` predicate. -/
def extract_color_from_filename (filename_no_ext product_slug : String) :
    Option String :=
  let base := strip_trailing_number filename_no_ext
  if (product_slug ++ "-").data.isPrefixOf base.data then
    let rest : String := ⟨base.data.drop (product_slug.length + 1)⟩
    let tokens := pySplit rest "-"
    let color_tokens := tokens.takeWhile (fun t =>
      !(SIZE_TOKENS.contains t || isNumCmTok t) && !(isNumTok t || isNumCmTok t))
    if color_tokens = [] then none
    else some (pyJoin "-" color_tokens)
  else none

/-- One scraped image: `{"url": ..., "alt": ..., "basename": ...}` of
line 214. -/
structure ImageMeta where
  url : String
  alt : String
  basename : String
  deriving DecidableEq, Inhabited

/-- The alt-text fallback branch of `extract_color_for_image`
(lines 384-399). -/
def altColorFallback (img : ImageMeta) (product_slug : String) :
    Option String × Option String :=
  if img.alt ≠ "" then
    let altLower : String := ⟨img.alt.data.map pyLowerChar⟩
    let prodWords := pyReplace product_slug "-" " "
    let stripped := pyStripChars (pyReplace altLower prodWords "")
      [' ', '-', '–', '—', '_', ':', '(', ')', '[', ']']
    let collapsed : String :=
      ⟨collapseRuns ' ' (stripped.data.map (fun c => if c.isWhitespace then ' ' else c))⟩
    if collapsed = "" then (none, none)
    else
      let cand := slugify collapsed
      let parts := (pySplit cand "-").filter
        (fun p => p != "" && !(COLOR_STOPWORDS.contains p))
      if parts = [] then (none, none)
      else
        let cand := pyJoin "-" parts
        if KNOWN_COLOR_SLUGS.contains cand then
          (some cand, some (prettify_color_label cand))
        else (none, none)
  else (none, none)

/-- `extract_color_for_image` of lines 379-399: filename signal first,
accepted only for a truthy candidate in the closed vocabulary; otherwise the
alt-text fallback. -/
def extract_color_for_image (img : ImageMeta) (product_slug : String) :
    Option String × Option String :=
  match extract_color_from_filename (splitextRoot img.basename) product_slug with
  | some c =>
      if c ≠ "" ∧ KNOWN_COLOR_SLUGS.contains c then
        (some c, some (prettify_color_label c))
      else altColorFallback img product_slug
  | none => altColorFallback img product_slug

/-- The first-seen folds of lines 404-410: `color_to_image` and
`color_to_label` as insertion-ordered association lists (Python dicts
preserve insertion order), one entry per recognised color, keyed by the
first image that exhibits it. -/
def colorFold (image_meta : List ImageMeta) (product_slug : String) :
    List (String × String) × List (String × String) :=
  image_meta.foldl (fun acc it =>
    match extract_color_for_image it product_slug with
    | (some c, lab) =>
        if c ≠ "" ∧ ¬ (acc.1.map Prod.fst).contains c then
          (acc.1 ++ [(c, it.url)],
           acc.2 ++ [(c, match lab with
             | some l => if l ≠ "" then l else pyTitle (pyReplace c "-" " ")
             | none => pyTitle (pyReplace c "-" " "))])
        else acc
    | (none, _) => acc) ([], [])

/-- The `"simple"` row literal of lines 416-419. -/
def simpleRow (product_title product_slug parent_images : String) : List String :=
  ["", "simple", product_slug, product_title, "1", "visible", "taxable", "1",
   parent_images, "", "", "", "", "", "", ""]

/-- The `"variable"` parent row literal of lines 422-425. -/
def variableRow (product_title product_slug parent_images attrVals : String) :
    List String :=
  ["", "variable", product_slug, product_title, "1", "visible", "taxable", "1",
   parent_images, "", "", "", "couleur", attrVals, "1", "1"]

/-- One `"variation"` row of lines 426-433, for the color entry `p =
(color_slug, representative original url)`. -/
def variationRow (product_title product_slug : String)
    (url_transform : String → String) (ctl : List (String × String))
    (p : String × String) : List String :=
  let label := (ctl.lookup p.1).getD (prettify_color_label p.1)
  ["", "variation", product_slug ++ "-" ++ p.1,
   product_title ++ " - " ++ label, "1", "visible", "taxable", "1",
   url_transform p.2, product_slug, "", "", "couleur", label, "1", "1"]

/-- `build_rows_auto_type` of lines 401-434. -/
def build_rows_auto_type (product_title product_slug : String)
    (all_images : List String) (image_meta : List ImageMeta)
    (url_transform : String → String) : List (List String) :=
  let cti := (colorFold image_meta product_slug).1
  let ctl := (colorFold image_meta product_slug).2
  let parent_imgs_list := (all_images.map url_transform).filter (fun t => t ≠ "")
  let parent_images := pyJoin ", " parent_imgs_list
  if cti.length < 2 then
    [simpleRow product_title product_slug parent_images]
  else
    let labels_ordered := cti.map (fun p => (ctl.lookup p.1).getD "")
    variableRow product_title product_slug parent_images
        (pyJoin ", " labels_ordered)
      :: cti.map (variationRow product_title product_slug url_transform ctl)

/-! ## Master CSV upsert (lines 436-485) -/

/-- `CSV_HEADERS` of lines 437-441. -/
def CSV_HEADERS : List String :=
  ["ID","Type","SKU","Name","Published","Visibility in catalog","Tax status",
   "In stock?","Images","Parent","Regular price","Sale price",
   "Attribute 1 name","Attribute 1 value(s)","Attribute 1 visible","Attribute 1 global"]

/-- Pad with `""` or truncate a row to exactly `n` columns (lines 458-459 for
existing rows, lines 474-475 for incoming rows). -/
def padTo (n : Nat) (r : List String) : List String :=
  (r ++ List.replicate (n - r.length) "").take n

/-- The SKU cell of a row: `(r[sku_idx] or "").strip()` (lines 470, 476). -/
def skuAt (skuIdx : Nat) (r : List String) : String :=
  pyTrim (r.getD skuIdx "")

/-- The index-building loop of lines 467-471 from position `i` on: each row
that is long enough and has a truthy SKU (re)binds that SKU to its position,
so among duplicated SKUs the *last* occurrence ends up indexed. -/
def buildIndexAux (skuIdx : Nat) : Nat → List (List String) →
    (String → Option Nat) → (String → Option Nat)
  | _, [], st => st
  | i, r :: rs, st =>
      buildIndexAux skuIdx (i + 1) rs
        (if skuIdx < r.length ∧ skuAt skuIdx r ≠ "" then
           fun q => if q = skuAt skuIdx r then some i else st q
         else st)

/-- The SKU→position index over the existing rows (lines 467-471), as a
lookup function (the source uses a `dict`). -/
def buildIndex (skuIdx : Nat) (rows : List (List String)) : String → Option Nat :=
  buildIndexAux skuIdx 0 rows (fun _ => none)

/-- One iteration of the upsert loop of lines 473-481: pad/truncate the
incoming row, then overwrite in place if its SKU is truthy and indexed, else
append (and index a truthy SKU at its new position). -/
def upsertStep (skuIdx hlen : Nat)
    (acc : List (List String) × (String → Option Nat)) (row0 : List String) :
    List (List String) × (String → Option Nat) :=
  let row := padTo hlen row0
  let s := skuAt skuIdx row
  if s ≠ "" then
    match acc.2 s with
    | some i => (acc.1.set i row, acc.2)
    | none => (acc.1 ++ [row], fun q => if q = s then some acc.1.length else acc.2 q)
  else (acc.1 ++ [row], acc.2)

/-- The in-memory merge performed by `append_rows_to_master_csv`
(lines 443-485) between parsing the existing file and rewriting it: existing
rows are padded/truncated to the header width (lines 457-460), a
SKU→position index is built over them (lines 463-471, with `sku_idx`
defaulting to 2 when the header lacks a `"SKU"` cell), and each incoming row
either overwrites its indexed position or is appended and indexed
(lines 472-481).  `header` is the file's own header when that has the
canonical column count and the canonical header otherwise (lines 446-456).
File IO, the BOM and csv quoting are delegated to Python's `csv` module and
are no part of the merge algorithm. -/
def mergeMaster (header : List String) (existing incoming : List (List String)) :
    List (List String) :=
  let skuIdx := match header.indexOf? "SKU" with
    | some i => i
    | none => 2
  let E := existing.map (padTo header.length)
  (incoming.foldl (upsertStep skuIdx header.length) (E, buildIndex skuIdx E)).1

/-! ## WordPress upload with content-addressed cache (lines 282-355) -/

/-- One value of the persisted upload cache:
`{"url": ..., "id": ..., "filename": ...}` (line 349). -/
structure CacheEntry where
  url : String
  id : String
  filename : String
  deriving DecidableEq, Inhabited

/-- Functional update of a string-keyed map (model of a `dict` store). -/
def fupd {β : Type} (f : String → β) (k : String) (v : β) : String → β :=
  fun q => if q = k then v else f q

/-- The running state of `upload_jpgs_to_wp`: the `out` dict, the cache, and
logs of the issued HTTP POSTs.  `uploadPosts` records the byte contents
POSTed to the media-creation endpoint (line 332); `metaPosts` records the
media ids of the best-effort metadata follow-up POSTs to
`endpoint/{media_id}` (lines 340-347). -/
structure UploadState where
  out : String → Option String
  cache : String → Option CacheEntry
  uploadPosts : List String
  metaPosts : List String

/-- One iteration of the upload loop (lines 314-354).  `dir` maps a filename
to the byte content of `local_dir/fname` (`none` when the file does not
exist, line 319); `sha1` is the content-hash function of `_sha1_file`;
`net` maps POSTed byte content to `some (media_id, source_url)` for an HTTP
200/201 response and to `none` for a failing response or a raised exception
(in both of which cases nothing is cached and the output URL is empty,
lines 333-336 and 352-354). -/
def uploadStep (dir : String → Option String) (sha1 : String → String)
    (net : String → Option (String × String)) (product_title : String)
    (st : UploadState) (fname : String) : UploadState :=
  if fname = "" then { st with out := fupd st.out fname (some "") }
  else match dir fname with
  | none => { st with out := fupd st.out fname (some "") }
  | some content =>
    let h := sha1 content
    match st.cache h with
    | some e => { st with out := fupd st.out fname (some e.url) }
    | none =>
      match net content with
      | none =>
          { st with uploadPosts := st.uploadPosts ++ [content],
                    out := fupd st.out fname (some "") }
      | some (mediaId, srcUrl) =>
          { out := fupd st.out fname (some srcUrl)
            cache := fupd st.cache h (some ⟨srcUrl, mediaId, fname⟩)
            uploadPosts := st.uploadPosts ++ [content]
            metaPosts := st.metaPosts ++
              (if mediaId ≠ "" ∧ product_title ≠ "" then [mediaId] else []) }

/-- `upload_jpgs_to_wp` of lines 306-355 as a fold over the filename list,
starting from the persisted cache `cache0` (`_load_cache`, line 312).  The
final state's `cache` is also the persisted cache after the run: `_save_cache`
(line 350) runs on every mutation, so disk and memory agree at all times. -/
def upload_jpgs_to_wp (dir : String → Option String) (sha1 : String → String)
    (net : String → Option (String × String)) (product_title : String)
    (filenames : List String) (cache0 : String → Option CacheEntry) : UploadState :=
  filenames.foldl (uploadStep dir sha1 net product_title)
    { out := fun _ => none, cache := cache0, uploadPosts := [], metaPosts := [] }

/-! ## URL path helpers (lines 213, 263-264) -/

/-- Model of `urlparse(u).path` for the http(s) URLs this scraper handles:
drop the fragment and query, then everything up to the first `/` after the
`scheme://authority` part; a string without `://` is all path. -/
def urlPath (u : String) : String :=
  let noFrag := (pySplit u "#").headD ""
  let noQuery := (pySplit noFrag "?").headD ""
  match pySplit noQuery "://" with
  | [] => ""
  | [p] => p
  | _ :: rest =>
      ⟨(pyJoin "://" rest).data.dropWhile (fun c => c ≠ '/')⟩

/-- `os.path.basename` for a URL path: the part after the last `/`. -/
def pathBasename (p : String) : String :=
  ⟨(p.data.reverse.takeWhile (fun c => c ≠ '/')).reverse⟩

/-! ## Collision-free JPEG naming (lines 219-280) -/

/-- Model of Python `str.lower()` (ASCII model) used for the case-insensitive
`used` bookkeeping of `unique_name_no_digits`. -/
def lowerName (s : String) : String := ⟨s.data.map Char.toLower⟩

/-- The candidate filename tried at step `k` by `unique_name_no_digits`
(lines 220-239), in the source's order: the bare name, then single-letter
suffixes `-a`…`-z`, then two-letter suffixes `-aa`…`-zz` (first letter
outermost), then numbered suffixes `-x1`, `-x2`, …. -/
def candName (base ext : String) : Nat → String
  | 0 => base ++ ext
  | k + 1 =>
    if k < 26 then base ++ "-" ++ ⟨[Char.ofNat (97 + k)]⟩ ++ ext
    else if k < 702 then
      base ++ "-" ++ ⟨[Char.ofNat (97 + (k - 26) / 26),
                       Char.ofNat (97 + (k - 26) % 26)]⟩ ++ ext
    else base ++ "-x" ++ decimalStr (k - 701) ++ ext

/-- `unique_name_no_digits` of lines 220-239: the first candidate (in
`candName` order) whose lower-cased form is not in `used`.  The source's
search is unbounded (`while True:`); searching the first `used.length + 704`
candidates is exhaustive, because the numbered candidates alone already offer
`used.length + 1` pairwise-distinct names, at most `used.length` of which can
be occupied — so the first free candidate lies within the bound and the `""`
fallback arm is unreachable (`unique_name_ne_empty` below). -/
def unique_name_no_digits (base ext : String) (used : List String) : String :=
  match (List.range (used.length + 704)).findSome? (fun k =>
    let cand := candName base ext k
    if used.contains (lowerName cand) then none else some cand) with
  | some c => c
  | none => ""

/-- Per-run state of `download_and_convert_to_jpg` (lines 252-280): the
positional result list (`saved_names`), the case-folded `used` set, the set
of filenames present in `out_dir`, and the log of names whose
`open(final_path, "wb")` (line 271) truncated a file that already existed in
the directory. -/
structure ConvertResult where
  names : List String
  used : List String
  dirFiles : List String
  overwritten : List String

/-- The converted-name base derived from a source URL (lines 263-266): the
URL path's basename (`"image"` when falsy), its extension split off, the
trailing `-<digits>` suffix stripped (`"image"` again when falsy). -/
def convBase (u : String) : String :=
  let baseWithExt := let b := pathBasename (urlPath u)
                     if b = "" then "image" else b
  let base := splitextRoot baseWithExt
  let b2 := strip_trailing_number base
  if b2 = "" then "image" else b2

/-- One iteration of the download loop (lines 258-279).  `fetchOk u` models
whether the HTTP GET and the PIL decode of `u` succeed (lines 261-270); on a
failure the except-arms leave `filename = ""` for that position
(lines 259, 275-279).  On success the name derived from the URL is made
unique against this run's `used` set and written to the directory. -/
def convertStep (fetchOk : String → Bool) (st : ConvertResult) (u : String) :
    ConvertResult :=
  if fetchOk u then
    let finalName := unique_name_no_digits (convBase u) ".jpg" st.used
    { names := st.names ++ [finalName]
      used := st.used ++ [lowerName finalName]
      dirFiles := if st.dirFiles.contains finalName then st.dirFiles
                  else st.dirFiles ++ [finalName]
      overwritten := st.overwritten ++
        (if st.dirFiles.contains finalName then [finalName] else []) }
  else { st with names := st.names ++ [""] }

/-- `download_and_convert_to_jpg` of lines 252-280, over a directory that
initially holds the files `dir0`.  The `used` set starts empty on every run
(line 254) and is never seeded from the directory's existing contents. -/
def download_and_convert_to_jpg (fetchOk : String → Bool) (urls : List String)
    (dir0 : List String) : ConvertResult :=
  urls.foldl (convertStep fetchOk) ⟨[], [], dir0, []⟩

/-! ## Image collection dedup (lines 199-215) -/

/-- The dedup loop of `fetch_images_with_meta` (lines 199-214).  The page
query and attribute reads are external (Selenium); each matched element is
modelled by the URL (if any) that `extract_image_url_from_element` resolved
for it together with its raw alt attribute.  A falsy or already-seen URL is
skipped; otherwise the item is appended in page order with its stripped alt
text and the basename of its URL path. -/
def dedupItems (elems : List (Option String × String)) : List ImageMeta :=
  (elems.foldl (fun (acc : List String × List ImageMeta) e =>
    match e.1 with
    | none => acc
    | some url =>
      if url = "" ∨ acc.1.contains url then acc
      else (acc.1 ++ [url],
            acc.2 ++ [⟨url, pyTrim e.2, pathBasename (urlPath url)⟩])) ([], [])).2

/-- First-seen deduplication of a URL list by exact string equality — the
specification the dedup loop is measured against. -/
def dedupFirstSeen (l : List String) : List String :=
  l.foldl (fun acc u => if acc.contains u then acc else acc ++ [u]) []

/-- Claim-side stop predicate for the filename token scan: a size token from
the closed set, a purely numeric token, or a numeric token followed by
`cm`. -/
def isStopToken (t : String) : Bool :=
  SIZE_TOKENS.contains t || isNumTok t || isNumCmTok t

/-- Claim-side description of the SKU index contents: the position of the
*last* row of `rows` that is long enough and whose truthy SKU cell equals
`s`; `none` when there is no such row. -/
def lastOcc (skuIdx : Nat) (s : String) : List (List String) → Option Nat
  | [] => none
  | r :: rs =>
    match lastOcc skuIdx s rs with
    | some j => some (j + 1)
    | none =>
      if skuIdx < r.length ∧ skuAt skuIdx r = s ∧ s ≠ "" then some 0 else none

/-!
## Theorems

One theorem per claim, sharing the helper lemmas below.
-/

/-- The left fold used to model `pairs.sort(key=width); pairs[-1]` returns a
member of `q :: l` whose width bounds every member's width. -/
theorem pickLast_mem_max (l : List (String × Int)) (q : String × Int) :
    (l.foldl (fun best p => if best.2 ≤ p.2 then p else best) q) ∈ q :: l ∧
    ∀ r ∈ q :: l,
      r.2 ≤ (l.foldl (fun best p => if best.2 ≤ p.2 then p else best) q).2 := by
  induction l generalizing q with
  | nil => simp
  | cons p l ih =>
    have step : (if q.2 ≤ p.2 then p else q) = p ∨ (if q.2 ≤ p.2 then p else q) = q := by
      split <;> simp
    have hb : q.2 ≤ (if q.2 ≤ p.2 then p else q).2 ∧ p.2 ≤ (if q.2 ≤ p.2 then p else q).2 := by
      split <;> omega
    obtain ⟨hmem, hmax⟩ := ih (if q.2 ≤ p.2 then p else q)
    constructor
    · rw [List.foldl_cons]
      rcases List.mem_cons.1 hmem with h | h <;>
        rcases step with hs | hs <;> rw [hs] at h ⊢ <;> simp [h]
    · intro r hr
      rw [List.foldl_cons]
      rcases List.mem_cons.1 hr with rfl | hr
      · exact le_trans hb.1 (hmax _ (List.mem_cons_self _ _))
      rcases List.mem_cons.1 hr with rfl | hr
      · exact le_trans hb.2 (hmax _ (List.mem_cons_self _ _))
      · exact hmax _ (List.mem_cons_of_mem _ hr)

/-- With all widths equal the fold keeps moving to the later pair, hence
returns the last one. -/
theorem pickLast_allEq (l : List (String × Int)) (q : String × Int)
    (h : ∀ r ∈ q :: l, r.2 = 0) :
    some (l.foldl (fun best p => if best.2 ≤ p.2 then p else best) q) =
      (q :: l).getLast? := by
  induction l generalizing q with
  | nil => simp
  | cons p l ih =>
    have hq : q.2 = 0 := h q (List.mem_cons_self _ _)
    have hp : p.2 = 0 := h p (by simp)
    have : (if q.2 ≤ p.2 then p else q) = p := by rw [hq, hp]; simp
    rw [List.foldl_cons, this, List.getLast?_cons_cons]
    exact ih p (fun r hr => h r (List.mem_cons_of_mem _ hr))

/-- C8.  Srcset selection: `best_from_srcset` parses the comma-separated
`url [Nw]` descriptors and returns the URL of an entry with the largest
width (the last such entry, by the stable sort); when every entry has width
0 — in particular when no entry carries a width descriptor — it returns the
last listed URL.  The example of the claim is checked literally. -/
theorem srcset_selection :
    best_from_srcset "a.jpg 200w, b.jpg 800w, c.jpg 400w" = some "b.jpg" ∧
    (∀ v u, best_from_srcset v = some u →
      ∃ r ∈ srcsetPairs v, r.1 = u ∧ ∀ q ∈ srcsetPairs v, q.2 ≤ r.2) ∧
    (∀ v, srcsetPairs v ≠ [] → (∀ q ∈ srcsetPairs v, q.2 = 0) →
      best_from_srcset v = ((srcsetPairs v).getLast?).map Prod.fst) := by
  refine ⟨by decide, ?_, ?_⟩
  · intro v u hu
    unfold best_from_srcset at hu
    split at hu
    · exact absurd hu (by simp)
    · rename_i q qs hq
      obtain ⟨hmem, hmax⟩ := pickLast_mem_max qs q
      refine ⟨_, by rw [hq]; exact hmem, Option.some.inj hu, ?_⟩
      intro r hr
      exact hmax r (by rwa [← hq])
  · intro v hne hz
    unfold best_from_srcset
    split
    · exact absurd (by assumption) hne
    · rename_i q qs hq
      have := pickLast_allEq qs q (fun r hr => hz r (by rw [hq]; exact hr))
      rw [hq, ← this]
      rfl

/-- Witness for C8: the universally quantified parts of `srcset_selection`
instantiated at the claim's example srcset. -/
theorem srcset_selection_witness :
    (∃ r ∈ srcsetPairs "a.jpg 200w, b.jpg 800w, c.jpg 400w", r.1 = "b.jpg" ∧
       ∀ q ∈ srcsetPairs "a.jpg 200w, b.jpg 800w, c.jpg 400w", q.2 ≤ r.2) ∧
    best_from_srcset "x.jpg, y.jpg" = ((srcsetPairs "x.jpg, y.jpg").getLast?).map Prod.fst :=
  ⟨srcset_selection.2.1 "a.jpg 200w, b.jpg 800w, c.jpg 400w" "b.jpg" (by decide),
   srcset_selection.2.2 "x.jpg, y.jpg" (by decide) (by decide)⟩

/-- Looking up a member of `names` in the association list
`x ↦ (x, f x)` yields `f` at that member (duplicates carry equal values). -/
theorem lookup_mapPairs (f : String → String) (names : List String) (n : String)
    (h : n ∈ names) :
    (names.map (fun x => (x, f x))).lookup n = some (f n) := by
  induction names with
  | nil => cases h
  | cons a l ih =>
    by_cases hn : n = a
    · subst hn; simp [List.lookup]
    · have hb : (n == a) = false := beq_eq_false_iff_ne.2 hn
      rcases List.mem_cons.1 h with h1 | h1
      · exact absurd h1 hn
      · simp only [List.map_cons, List.lookup, hb]
        exact ih h1

/-- C9.  Prefix URL construction: with a truthy year and a month parsing as
an integer, `build_prefixed_urls` maps each nonempty filename `n` to
`base ++ "/" ++ year ++ "/" ++ month ++ "/" ++ n` with the month zero-padded
to two digits, where `base` is the prefix without its trailing slash; with
year and month omitted it maps `n` to `base ++ "/" ++ n`; the empty filename
always maps to the empty URL.  The function is pure — the model has no
network parameter, matching a source function that performs no IO. -/
theorem prefix_url_construction (pref y m n : String) (names : List String)
    (mv : Int) (hy : y ≠ "") (hm : pyInt? m = some mv) (hn : n ∈ names)
    (hne : n ≠ "") :
    (∃ r, build_prefixed_urls pref names (some y) (some m) = some r ∧
       r.lookup n = some ((if pyEndsWith pref "/" then pyDropRight pref 1 else pref)
         ++ ("/" ++ y ++ "/" ++ pad02 mv) ++ "/" ++ n)) ∧
    (∃ r, build_prefixed_urls pref names none none = some r ∧
       r.lookup n = some ((if pyEndsWith pref "/" then pyDropRight pref 1 else pref)
         ++ "/" ++ n)) ∧
    (∀ r, "" ∈ names → build_prefixed_urls pref names (some y) (some m) = some r →
       r.lookup "" = some "") := by
  have hm' : m ≠ "" := by
    intro e
    rw [e, show (pyInt? "" : Option Int) = none from by decide] at hm
    cases hm
  have hcond : (truthy (some y) && truthy (some m)) = true := by
    simp [truthy, hy, hm']
  have hmain : build_prefixed_urls pref names (some y) (some m) =
      some (names.map (fun x => (x,
        if x = "" then "" else
          (if pyEndsWith pref "/" then pyDropRight pref 1 else pref)
            ++ ("/" ++ y ++ "/" ++ pad02 mv) ++ "/" ++ x))) := by
    unfold build_prefixed_urls
    rw [hcond]
    simp [hm]
  have hnone : build_prefixed_urls pref names none none =
      some (names.map (fun x => (x,
        if x = "" then "" else
          (if pyEndsWith pref "/" then pyDropRight pref 1 else pref)
            ++ "/" ++ x))) := by
    unfold build_prefixed_urls
    simp [truthy]
  refine ⟨⟨_, hmain, ?_⟩, ⟨_, hnone, ?_⟩, ?_⟩
  · rw [lookup_mapPairs (fun x =>
        if x = "" then "" else
          (if pyEndsWith pref "/" then pyDropRight pref 1 else pref)
            ++ ("/" ++ y ++ "/" ++ pad02 mv) ++ "/" ++ x) names n hn]
    simp [hne]
  · rw [lookup_mapPairs (fun x =>
        if x = "" then "" else
          (if pyEndsWith pref "/" then pyDropRight pref 1 else pref)
            ++ "/" ++ x) names n hn]
    simp [hne]
  · intro r he hr
    rw [hmain] at hr
    cases hr
    rw [lookup_mapPairs (fun x =>
        if x = "" then "" else
          (if pyEndsWith pref "/" then pyDropRight pref 1 else pref)
            ++ ("/" ++ y ++ "/" ++ pad02 mv) ++ "/" ++ x) names "" he]
    rfl

/-- Witness for C9: `prefix_url_construction` applied to the claim's example
(prefix `https://example.com/uploads`, filename `a.jpg`, year `2024`,
month `3`). -/
theorem prefix_url_construction_witness :
    (∃ r, build_prefixed_urls "https://example.com/uploads" ["a.jpg"]
        (some "2024") (some "3") = some r ∧
        r.lookup "a.jpg" = some "https://example.com/uploads/2024/03/a.jpg") ∧
    (∃ r, build_prefixed_urls "https://example.com/uploads" ["a.jpg"]
        none none = some r ∧
        r.lookup "a.jpg" = some "https://example.com/uploads/a.jpg") := by
  have h := prefix_url_construction "https://example.com/uploads" "2024" "3"
    "a.jpg" ["a.jpg"] 3 (by decide) (by decide) (by simp) (by decide)
  obtain ⟨⟨r1, h1, l1⟩, ⟨r2, h2, l2⟩, _⟩ := h
  exact ⟨⟨r1, h1, l1.trans (by decide)⟩, ⟨r2, h2, l2.trans (by decide)⟩⟩

/-- C10.  The dated path segment is emitted only when year AND month are both
supplied and truthy: a year without a month, a month without a year, or an
empty partner component all silently produce `base ++ "/" ++ name` with no
date segment and no error — the lone component is discarded and the month is
never inspected (so even a non-numeric month raises nothing). -/
theorem prefix_url_partial_date (pref : String) (names : List String)
    (y m n : String) (hn : n ∈ names) :
    (∃ r, build_prefixed_urls pref names (some y) none = some r ∧
       r.lookup n = some (if n = "" then "" else
         (if pyEndsWith pref "/" then pyDropRight pref 1 else pref) ++ "/" ++ n)) ∧
    (∃ r, build_prefixed_urls pref names none (some m) = some r ∧
       r.lookup n = some (if n = "" then "" else
         (if pyEndsWith pref "/" then pyDropRight pref 1 else pref) ++ "/" ++ n)) ∧
    (∃ r, build_prefixed_urls pref names (some y) (some "") = some r ∧
       r.lookup n = some (if n = "" then "" else
         (if pyEndsWith pref "/" then pyDropRight pref 1 else pref) ++ "/" ++ n)) ∧
    (∃ r, build_prefixed_urls pref names (some "") (some m) = some r ∧
       r.lookup n = some (if n = "" then "" else
         (if pyEndsWith pref "/" then pyDropRight pref 1 else pref) ++ "/" ++ n)) := by
  have key : ∀ (yy mm : Option String), (truthy yy && truthy mm) = false →
      build_prefixed_urls pref names yy mm =
        some (names.map (fun x => (x,
          if x = "" then "" else
            (if pyEndsWith pref "/" then pyDropRight pref 1 else pref)
              ++ "/" ++ x))) := by
    intro yy mm hc
    unfold build_prefixed_urls
    rw [hc]
    simp
  have lk : (names.map (fun x => (x,
      if x = "" then "" else
        (if pyEndsWith pref "/" then pyDropRight pref 1 else pref)
          ++ "/" ++ x))).lookup n =
      some (if n = "" then "" else
        (if pyEndsWith pref "/" then pyDropRight pref 1 else pref) ++ "/" ++ n) :=
    lookup_mapPairs _ names n hn
  exact ⟨⟨_, key (some y) none (by simp [truthy]), lk⟩,
         ⟨_, key none (some m) (by simp [truthy]), lk⟩,
         ⟨_, key (some y) (some "") (by simp [truthy]), lk⟩,
         ⟨_, key (some "") (some m) (by simp [truthy]), lk⟩⟩

/-- Witness for C10: a year supplied without a month yields the undated URL
for the concrete prefix and filename of the claim's example. -/
theorem prefix_url_partial_date_witness :
    ∃ r, build_prefixed_urls "https://example.com/uploads" ["a.jpg"]
        (some "2024") none = some r ∧
        r.lookup "a.jpg" = some "https://example.com/uploads/a.jpg" := by
  obtain ⟨⟨r1, h1, l1⟩, _⟩ := prefix_url_partial_date "https://example.com/uploads"
    ["a.jpg"] "2024" "x" "a.jpg" (by simp)
  exact ⟨r1, h1, l1.trans (by decide)⟩

/-- C4.  Color extraction from a filename: when the basename — extension and
trailing `-<digits>` suffix stripped — starts with the product slug followed
by `-`, the remainder is split on hyphens and scanned left to right, stopping
at the first token that is a size token of the closed set
`{s, m, l, xl, xs, xxl}`, purely numeric, or numeric followed by `cm`; the
tokens before the stop, hyphen-joined, form the candidate (none when no token
precedes the stop).  A filename candidate is accepted only when it lies in
the closed color vocabulary; otherwise — and when the filename yields no
candidate — the alt-text fallback is consulted. -/
theorem color_extraction_tokenization :
    (∀ fname slug rest, strip_trailing_number fname = slug ++ "-" ++ rest →
       extract_color_from_filename fname slug =
         (let pre := (pySplit rest "-").takeWhile (fun t => !(isStopToken t))
          if pre = [] then none else some (pyJoin "-" pre))) ∧
    (∀ img slug c,
       extract_color_from_filename (splitextRoot img.basename) slug = some c →
       (KNOWN_COLOR_SLUGS.contains c →
          extract_color_for_image img slug = (some c, some (prettify_color_label c))) ∧
       (¬ KNOWN_COLOR_SLUGS.contains c →
          extract_color_for_image img slug = altColorFallback img slug)) ∧
    (∀ img slug,
       extract_color_from_filename (splitextRoot img.basename) slug = none →
       extract_color_for_image img slug = altColorFallback img slug) := by
  refine ⟨?_, ?_, ?_⟩
  · intro fname slug rest hsp
    unfold extract_color_from_filename
    rw [hsp]
    have hdata : (slug ++ "-" ++ rest).data = (slug ++ "-").data ++ rest.data :=
      String.data_append _ _
    have hlen : (slug ++ "-").data.length = slug.length + 1 := by
      rw [String.data_append, List.length_append]
      rfl
    have hpre : ((slug ++ "-").data).isPrefixOf (slug ++ "-" ++ rest).data = true := by
      rw [hdata]
      exact List.isPrefixOf_iff_prefix.2 (List.prefix_append _ _)
    have hdrop : (slug ++ "-" ++ rest).data.drop (slug.length + 1) = rest.data := by
      rw [hdata, ← hlen, List.drop_left]
    have hfun : (fun t => !(SIZE_TOKENS.contains t || isNumCmTok t) &&
        !(isNumTok t || isNumCmTok t)) = (fun t => !(isStopToken t)) := by
      funext t
      unfold isStopToken
      cases SIZE_TOKENS.contains t <;> cases isNumTok t <;> cases isNumCmTok t <;> rfl
    simp only [hpre, eq_self_iff_true, if_true, hdrop, hfun]
  · intro img slug c hc
    constructor
    · intro hk
      have hne : c ≠ "" := by
        intro e
        rw [e] at hk
        exact absurd hk (by decide)
      unfold extract_color_for_image
      rw [hc]
      exact if_pos ⟨hne, hk⟩
    · intro hk
      unfold extract_color_for_image
      rw [hc]
      exact if_neg (fun h => hk h.2)
  · intro img slug hc
    unfold extract_color_for_image
    rw [hc]

/-- Witness for C4: the three parts of `color_extraction_tokenization`
instantiated at concrete filenames — `bob-hat-noir-1` tokenizes to the
accepted color `noir`, `bob-hat-lagoon-1.jpg` yields the out-of-vocabulary
candidate `lagoon` and falls back to alt text, and `other-photo.jpg` yields
no candidate at all. -/
theorem color_extraction_tokenization_witness :
    extract_color_from_filename "bob-hat-noir-1" "bob-hat" =
      (let pre := (pySplit "noir" "-").takeWhile (fun t => !(isStopToken t))
       if pre = [] then none else some (pyJoin "-" pre)) ∧
    extract_color_for_image ⟨"u", "", "bob-hat-noir-1.jpg"⟩ "bob-hat" =
      (some "noir", some (prettify_color_label "noir")) ∧
    extract_color_for_image ⟨"u", "", "bob-hat-lagoon-1.jpg"⟩ "bob-hat" =
      altColorFallback ⟨"u", "", "bob-hat-lagoon-1.jpg"⟩ "bob-hat" ∧
    extract_color_for_image ⟨"u", "", "other-photo.jpg"⟩ "bob-hat" =
      altColorFallback ⟨"u", "", "other-photo.jpg"⟩ "bob-hat" :=
  ⟨color_extraction_tokenization.1 "bob-hat-noir-1" "bob-hat" "noir" (by decide),
   ((color_extraction_tokenization.2.1 ⟨"u", "", "bob-hat-noir-1.jpg"⟩ "bob-hat"
      "noir" (by decide)).1 (by decide)),
   ((color_extraction_tokenization.2.1 ⟨"u", "", "bob-hat-lagoon-1.jpg"⟩ "bob-hat"
      "lagoon" (by decide)).2 (by decide)),
   (color_extraction_tokenization.2.2 ⟨"u", "", "other-photo.jpg"⟩ "bob-hat"
      (by decide))⟩

/-- C3.  Variant row policy: with fewer than two distinct recognised colors,
`build_rows_auto_type` returns exactly the one `"simple"` row; with `n ≥ 2`
colors it returns the `"variable"` parent row — whose attribute-values field
joins all color labels — followed by exactly one `"variation"` row per color,
whose Parent column holds the parent's slug and whose SKU is the parent slug,
a hyphen, and the color slug.  The claim's concrete example
(`bob-hat-noir-1.jpg`, `bob-hat-bleu-2.jpg` under slug `bob-hat`) yields
exactly the colors `noir`/`bleu` labelled `Noir`/`Bleu`, one variable row and
two variation rows; the same images with a single recognised color yield
exactly one simple row. -/
theorem variant_row_policy :
    (∀ title slug all_images meta tr,
       (colorFold meta slug).1.length < 2 →
       build_rows_auto_type title slug all_images meta tr =
         [simpleRow title slug
           (pyJoin ", " ((all_images.map tr).filter (fun t => t ≠ "")))]) ∧
    (∀ title slug all_images meta tr,
       2 ≤ (colorFold meta slug).1.length →
       build_rows_auto_type title slug all_images meta tr =
         variableRow title slug
             (pyJoin ", " ((all_images.map tr).filter (fun t => t ≠ "")))
             (pyJoin ", " ((colorFold meta slug).1.map
               (fun p => (((colorFold meta slug).2).lookup p.1).getD "")))
           :: (colorFold meta slug).1.map
               (variationRow title slug tr (colorFold meta slug).2) ∧
       (build_rows_auto_type title slug all_images meta tr).length =
         1 + (colorFold meta slug).1.length ∧
       (build_rows_auto_type title slug all_images meta tr).tail.map
           (fun r => r.getD 1 "") =
         (colorFold meta slug).1.map (fun _ => "variation") ∧
       (build_rows_auto_type title slug all_images meta tr).tail.map
           (fun r => r.getD 2 "") =
         (colorFold meta slug).1.map (fun p => slug ++ "-" ++ p.1) ∧
       (build_rows_auto_type title slug all_images meta tr).tail.map
           (fun r => r.getD 9 "") =
         (colorFold meta slug).1.map (fun _ => slug)) ∧
    ((colorFold [⟨"u1", "", "bob-hat-noir-1.jpg"⟩, ⟨"u2", "", "bob-hat-bleu-2.jpg"⟩]
        "bob-hat").1.map Prod.fst = ["noir", "bleu"] ∧
     build_rows_auto_type "Bob Hat" "bob-hat" ["u1", "u2"]
        [⟨"u1", "", "bob-hat-noir-1.jpg"⟩, ⟨"u2", "", "bob-hat-bleu-2.jpg"⟩]
        (fun u => u) =
       [variableRow "Bob Hat" "bob-hat" "u1, u2" "Noir, Bleu",
        ["", "variation", "bob-hat-noir", "Bob Hat - Noir", "1", "visible",
         "taxable", "1", "u1", "bob-hat", "", "", "couleur", "Noir", "1", "1"],
        ["", "variation", "bob-hat-bleu", "Bob Hat - Bleu", "1", "visible",
         "taxable", "1", "u2", "bob-hat", "", "", "couleur", "Bleu", "1", "1"]] ∧
     build_rows_auto_type "Bob Hat" "bob-hat" ["u1", "u2"]
        [⟨"u1", "", "bob-hat-noir-1.jpg"⟩, ⟨"u2", "", "bob-hat-noir-2.jpg"⟩]
        (fun u => u) =
       [simpleRow "Bob Hat" "bob-hat" "u1, u2"]) := by
  refine ⟨?_, ?_, by decide, by decide, by decide⟩
  · intro title slug all_images meta tr h
    simp only [build_rows_auto_type]
    rw [if_pos h]
  · intro title slug all_images meta tr h
    have hrows : build_rows_auto_type title slug all_images meta tr =
        variableRow title slug
            (pyJoin ", " ((all_images.map tr).filter (fun t => t ≠ "")))
            (pyJoin ", " ((colorFold meta slug).1.map
              (fun p => (((colorFold meta slug).2).lookup p.1).getD "")))
          :: (colorFold meta slug).1.map
              (variationRow title slug tr (colorFold meta slug).2) := by
      simp only [build_rows_auto_type]
      rw [if_neg (not_lt.2 h)]
    refine ⟨hrows, ?_, ?_, ?_, ?_⟩ <;> rw [hrows]
    · simp [Nat.add_comm]
    · rw [List.tail_cons, List.map_map]
      rfl
    · rw [List.tail_cons, List.map_map]
      rfl
    · rw [List.tail_cons, List.map_map]
      rfl

/-- Witness for C3: `variant_row_policy` applied at the claim's concrete
inputs — the single-color metadata discharges the `< 2` hypothesis, the
two-color metadata the `≥ 2` one. -/
theorem variant_row_policy_witness :
    build_rows_auto_type "Bob Hat" "bob-hat" ["u1", "u2"]
        [⟨"u1", "", "bob-hat-noir-1.jpg"⟩, ⟨"u2", "", "bob-hat-noir-2.jpg"⟩]
        (fun u => u) =
      [simpleRow "Bob Hat" "bob-hat"
        (pyJoin ", " (((["u1", "u2"] : List String).map (fun u => u)).filter
          (fun t => t ≠ "")))] ∧
    (build_rows_auto_type "Bob Hat" "bob-hat" ["u1", "u2"]
        [⟨"u1", "", "bob-hat-noir-1.jpg"⟩, ⟨"u2", "", "bob-hat-bleu-2.jpg"⟩]
        (fun u => u)).length =
      1 + (colorFold [⟨"u1", "", "bob-hat-noir-1.jpg"⟩,
        ⟨"u2", "", "bob-hat-bleu-2.jpg"⟩] "bob-hat").1.length :=
  ⟨variant_row_policy.1 "Bob Hat" "bob-hat" ["u1", "u2"]
     [⟨"u1", "", "bob-hat-noir-1.jpg"⟩, ⟨"u2", "", "bob-hat-noir-2.jpg"⟩]
     (fun u => u) (by decide),
   (variant_row_policy.2.1 "Bob Hat" "bob-hat" ["u1", "u2"]
     [⟨"u1", "", "bob-hat-noir-1.jpg"⟩, ⟨"u2", "", "bob-hat-bleu-2.jpg"⟩]
     (fun u => u) (by decide)).2.1⟩

/-- The index loop of lines 467-471, started at offset `i`, rebinds each
truthy SKU to its position, so it yields the row's *last* occurrence shifted
by `i`; a SKU not occurring falls through to the incoming state. -/
theorem buildIndexAux_lastOcc (skuIdx : Nat) (s : String) :
    ∀ (rows : List (List String)) (i : Nat) (st : String → Option Nat),
    buildIndexAux skuIdx i rows st s =
      match lastOcc skuIdx s rows with
      | some j => some (i + j)
      | none => st s := by
  intro rows
  induction rows with
  | nil => intro i st; rfl
  | cons r rs ih =>
    intro i st
    unfold buildIndexAux
    rw [ih]
    have hcons : lastOcc skuIdx s (r :: rs) =
        (match lastOcc skuIdx s rs with
         | some j => some (j + 1)
         | none =>
            if skuIdx < r.length ∧ skuAt skuIdx r = s ∧ s ≠ "" then some 0
            else none) := rfl
    rw [hcons]
    cases hr : lastOcc skuIdx s rs with
    | some j =>
      show some (i + 1 + j) = some (i + (j + 1))
      congr 1
      omega
    | none =>
      by_cases hg : skuIdx < r.length ∧ skuAt skuIdx r ≠ ""
      · rw [if_pos hg]
        simp only []
        by_cases he : s = skuAt skuIdx r
        · rw [if_pos he,
              if_pos (show skuIdx < r.length ∧ skuAt skuIdx r = s ∧ s ≠ "" from
                ⟨hg.1, he.symm, fun h0 => hg.2 (he.symm.trans h0)⟩)]
          simp
        · rw [if_neg he,
              if_neg (show ¬(skuIdx < r.length ∧ skuAt skuIdx r = s ∧ s ≠ "") from
                fun hcond => he hcond.2.1.symm)]
      · rw [if_neg hg,
            if_neg (show ¬(skuIdx < r.length ∧ skuAt skuIdx r = s ∧ s ≠ "") from
              fun hcond =>
                hg ⟨hcond.1, fun h0 => hcond.2.2 (hcond.2.1.symm.trans h0)⟩)]

/-- The SKU→position index of `append_rows_to_master_csv` is exactly
`lastOcc`: among duplicated SKUs the last one wins. -/
theorem buildIndex_lastOcc (skuIdx : Nat) (rows : List (List String))
    (s : String) :
    buildIndex skuIdx rows s = lastOcc skuIdx s rows := by
  unfold buildIndex
  rw [buildIndexAux_lastOcc]
  cases lastOcc skuIdx s rows <;> simp

/-- A position reported by `lastOcc` really is a matching occurrence. -/
theorem lastOcc_some_occ (skuIdx : Nat) (s : String) :
    ∀ (rows : List (List String)) (j : Nat), lastOcc skuIdx s rows = some j →
      j < rows.length ∧ skuIdx < (rows.getD j []).length ∧
        skuAt skuIdx (rows.getD j []) = s := by
  intro rows
  induction rows with
  | nil => intro j h; cases h
  | cons r rs ih =>
    intro j h
    have hcons : lastOcc skuIdx s (r :: rs) =
        (match lastOcc skuIdx s rs with
         | some j' => some (j' + 1)
         | none =>
            if skuIdx < r.length ∧ skuAt skuIdx r = s ∧ s ≠ "" then some 0
            else none) := rfl
    rw [hcons] at h
    cases hr : lastOcc skuIdx s rs with
    | some j' =>
      rw [hr] at h
      have h2 : some (j' + 1) = some j := h
      cases h2
      obtain ⟨g1, g2, g3⟩ := ih j' hr
      refine ⟨by simp only [List.length_cons]; omega, ?_, ?_⟩
      · simpa using g2
      · simpa using g3
    | none =>
      rw [hr] at h
      have h2 : (if skuIdx < r.length ∧ skuAt skuIdx r = s ∧ s ≠ "" then
          (some 0 : Option Nat) else none) = some j := h
      by_cases hcond : skuIdx < r.length ∧ skuAt skuIdx r = s ∧ s ≠ ""
      · rw [if_pos hcond] at h2
        cases h2
        exact ⟨by simp, by simpa using hcond.1, by simpa using hcond.2.1⟩
      · rw [if_neg hcond] at h2
        cases h2

/-- When position `i` matches and nothing after it does, `lastOcc` reports
`i`. -/
theorem lastOcc_eq_some (skuIdx : Nat) (s : String)
    (rows : List (List String)) (i : Nat) (hi : i < rows.length)
    (hs : s ≠ "")
    (hocc : skuIdx < (rows.getD i []).length ∧ skuAt skuIdx (rows.getD i []) = s)
    (hafter : ∀ j, i < j → j < rows.length →
       ¬(skuIdx < (rows.getD j []).length ∧ skuAt skuIdx (rows.getD j []) = s)) :
    lastOcc skuIdx s rows = some i := by
  induction rows generalizing i with
  | nil => cases hi
  | cons r rs ih =>
    have hnone_of : (∀ j, i < j → j < rs.length + 1 →
        ¬(skuIdx < ((r :: rs).getD j []).length ∧
          skuAt skuIdx ((r :: rs).getD j []) = s)) := by
      simpa using hafter
    cases i with
    | zero =>
      have hnone : lastOcc skuIdx s rs = none := by
        cases hr : lastOcc skuIdx s rs with
        | none => rfl
        | some j' =>
          obtain ⟨h1, h2, h3⟩ := lastOcc_some_occ skuIdx s rs j' hr
          exact absurd ⟨by simpa using h2, by simpa using h3⟩
            (hnone_of (j' + 1) (Nat.succ_pos _) (by omega))
      unfold lastOcc
      rw [hnone]
      rw [if_pos ⟨by simpa using hocc.1, by simpa using hocc.2, hs⟩]
    | succ i' =>
      have : lastOcc skuIdx s rs = some i' := by
        refine ih i' (by simpa using hi) ⟨by simpa using hocc.1, by simpa using hocc.2⟩ ?_
        intro j hj hjlen hcond
        exact hafter (j + 1) (by omega) (by simpa using hjlen)
          ⟨by simpa using hcond.1, by simpa using hcond.2⟩
      unfold lastOcc
      rw [this]

/-- When no position matches, `lastOcc` reports nothing. -/
theorem lastOcc_eq_none (skuIdx : Nat) (s : String)
    (rows : List (List String))
    (h : ∀ j, j < rows.length →
       ¬(skuIdx < (rows.getD j []).length ∧ skuAt skuIdx (rows.getD j []) = s)) :
    lastOcc skuIdx s rows = none := by
  cases hr : lastOcc skuIdx s rows with
  | none => rfl
  | some j =>
    obtain ⟨h1, h2, h3⟩ := lastOcc_some_occ skuIdx s rows j hr
    exact absurd ⟨h2, h3⟩ (h j h1)

/-- Padding/truncating a row yields exactly `n` columns. -/
theorem padTo_length (n : Nat) (r : List String) : (padTo n r).length = n := by
  unfold padTo
  rw [List.length_take, List.length_append, List.length_replicate]
  omega

/-- Merging a single incoming row: overwrite at the indexed position of its
truthy SKU, else append. -/
theorem merge_single (existing : List (List String)) (row : List String) :
    mergeMaster CSV_HEADERS existing [row] =
      (if skuAt 2 (padTo 16 row) ≠ "" then
        match buildIndex 2 (existing.map (padTo 16)) (skuAt 2 (padTo 16 row)) with
        | some i => (existing.map (padTo 16)).set i (padTo 16 row)
        | none => existing.map (padTo 16) ++ [padTo 16 row]
      else existing.map (padTo 16) ++ [padTo 16 row]) := by
  show (upsertStep 2 16
      (existing.map (padTo 16), buildIndex 2 (existing.map (padTo 16)))
      row).1 = _
  unfold upsertStep
  dsimp only
  by_cases hs : skuAt 2 (padTo 16 row) ≠ ""
  · rw [if_pos hs, if_pos hs]
    cases hidx : buildIndex 2 (existing.map (padTo 16)) (skuAt 2 (padTo 16 row)) with
    | some i => rfl
    | none => rfl
  · rw [if_neg hs, if_neg hs]

/-- Setting position `i` of a list to `s` yields exactly one occurrence of
`s` when every other position differs from `s`. -/
theorem count_set_unique (l : List String) (i : Nat) (s : String)
    (hi : i < l.length)
    (hj : ∀ j, j < l.length → j ≠ i → l.getD j "" ≠ s) :
    (l.set i s).count s = 1 := by
  induction l generalizing i with
  | nil => cases hi
  | cons x t ih =>
    cases i with
    | zero =>
      have hnot : s ∉ t := by
        intro hmem
        obtain ⟨j, hjl, hje⟩ := List.mem_iff_getElem.1 hmem
        refine hj (j + 1) (by simpa using hjl) (by omega) ?_
        rw [List.getD_cons_succ, List.getD_eq_getElem?_getD,
            List.getElem?_eq_getElem hjl, Option.getD_some, hje]
      show (s :: t).count s = 1
      rw [List.count_cons_self, List.count_eq_zero.2 hnot]
    | succ i' =>
      have hx : x ≠ s := by
        have := hj 0 (by simp) (by omega)
        simpa using this
      show (x :: t.set i' s).count s = 1
      rw [List.count_cons_of_ne (Ne.symm hx)]
      refine ih i' (by simpa using hi) ?_
      intro j hjl hji
      have := hj (j + 1) (by simpa using hjl) (by omega)
      simpa using this

/-- Every padded existing row has exactly the header's 16 columns. -/
theorem padded_getD_length (existing : List (List String)) (j : Nat)
    (hj : j < (existing.map (padTo 16)).length) :
    ((existing.map (padTo 16)).getD j []).length = 16 := by
  rw [List.getD_eq_getElem?_getD, List.getElem?_eq_getElem hj]
  have : (existing.map (padTo 16))[j] ∈ existing.map (padTo 16) :=
    List.getElem_mem _
  obtain ⟨r, _, hr⟩ := List.mem_map.1 this
  rw [Option.getD_some, ← hr, padTo_length]

/-- `getD` through `map (skuAt 2)` in range. -/
theorem getD_map_skuAt (E : List (List String)) (j : Nat) (hj : j < E.length) :
    (E.map (skuAt 2)).getD j "" = skuAt 2 (E.getD j []) := by
  rw [List.getD_eq_getElem?_getD, List.getD_eq_getElem?_getD,
      List.getElem?_eq_getElem (by simpa using hj), List.getElem?_eq_getElem hj]
  simp

/-- C1 (amended).  Catalog upsert-merge, for an incoming row whose non-empty
SKU occurs exactly once among the (padded) existing rows: the merge result is
the existing rows with that one position replaced by the padded incoming row
— so exactly one row carries the SKU, it holds the incoming values, it sits
at the original row's position, every other row is untouched, and the row
count is unchanged.  An incoming row whose SKU is empty or not present is
appended at the end.  (The claim's unqualified "exactly one row carries that
SKU" fails on a file already holding duplicates of the SKU, see
`upsert_unique_sku_cex`; hence the exactly-once hypothesis.) -/
theorem catalog_upsert_merge (existing : List (List String)) (row : List String) :
    (∀ i, skuAt 2 (padTo 16 row) ≠ "" →
       i < (existing.map (padTo 16)).length →
       skuAt 2 ((existing.map (padTo 16)).getD i []) = skuAt 2 (padTo 16 row) →
       (∀ j, j < (existing.map (padTo 16)).length → j ≠ i →
          skuAt 2 ((existing.map (padTo 16)).getD j []) ≠ skuAt 2 (padTo 16 row)) →
       mergeMaster CSV_HEADERS existing [row] =
           (existing.map (padTo 16)).set i (padTo 16 row) ∧
       ((mergeMaster CSV_HEADERS existing [row]).map (skuAt 2)).count
           (skuAt 2 (padTo 16 row)) = 1 ∧
       (mergeMaster CSV_HEADERS existing [row]).getD i [] = padTo 16 row ∧
       (∀ j, j ≠ i → (mergeMaster CSV_HEADERS existing [row]).getD j [] =
           (existing.map (padTo 16)).getD j []) ∧
       (mergeMaster CSV_HEADERS existing [row]).length =
           (existing.map (padTo 16)).length) ∧
    ((skuAt 2 (padTo 16 row) = "" ∨
       (∀ j, j < (existing.map (padTo 16)).length →
          skuAt 2 ((existing.map (padTo 16)).getD j []) ≠ skuAt 2 (padTo 16 row))) →
       mergeMaster CSV_HEADERS existing [row] =
         existing.map (padTo 16) ++ [padTo 16 row]) := by
  constructor
  · intro i hs hi hocc huniq
    have hlast : lastOcc 2 (skuAt 2 (padTo 16 row)) (existing.map (padTo 16)) =
        some i := by
      refine lastOcc_eq_some 2 _ _ i hi hs
        ⟨by rw [padded_getD_length existing i hi]; omega, hocc⟩ ?_
      intro j hij hj hc
      exact huniq j hj (by omega) hc.2
    have hmerge : mergeMaster CSV_HEADERS existing [row] =
        (existing.map (padTo 16)).set i (padTo 16 row) := by
      rw [merge_single, if_pos hs, buildIndex_lastOcc, hlast]
    refine ⟨hmerge, ?_, ?_, ?_, ?_⟩
    · rw [hmerge, List.map_set]
      refine count_set_unique _ i _ (by simpa using hi) ?_
      intro j hj hji
      rw [getD_map_skuAt _ j (by simpa using hj)]
      exact huniq j (by simpa using hj) hji
    · rw [hmerge, List.getD_eq_getElem?_getD, List.getElem?_set_self hi,
          Option.getD_some]
    · intro j hji
      rw [hmerge, List.getD_eq_getElem?_getD, List.getD_eq_getElem?_getD,
          List.getElem?_set_ne (fun h => hji h.symm)]
    · rw [hmerge, List.length_set]
  · intro hcase
    rcases hcase with hempty | habsent
    · rw [merge_single, if_neg (fun hne => hne hempty)]
    · by_cases hs : skuAt 2 (padTo 16 row) ≠ ""
      · have hnone : lastOcc 2 (skuAt 2 (padTo 16 row)) (existing.map (padTo 16)) =
            none := by
          refine lastOcc_eq_none 2 _ _ ?_
          intro j hj hc
          exact habsent j hj hc.2
        rw [merge_single, if_pos hs, buildIndex_lastOcc, hnone]
      · rw [merge_single, if_neg hs]

/-- Counterexample to C1 as stated: an existing catalog with two rows both
carrying SKU `X` (pre-existing duplicates); after merging one incoming row
with SKU `X`, the file still holds two rows with SKU `X` — not "exactly
one". -/
theorem upsert_unique_sku_cex :
    ((mergeMaster CSV_HEADERS
        [["", "simple", "X", "A", "1", "visible", "taxable", "1",
          "", "", "", "", "", "", "", ""],
         ["", "simple", "X", "B", "1", "visible", "taxable", "1",
          "", "", "", "", "", "", "", ""]]
        [["", "simple", "X", "NEW", "1", "visible", "taxable", "1",
          "", "", "", "", "", "", "", ""]]).map (skuAt 2)).count "X" = 2 ∧
    ¬ ((mergeMaster CSV_HEADERS
        [["", "simple", "X", "A", "1", "visible", "taxable", "1",
          "", "", "", "", "", "", "", ""],
         ["", "simple", "X", "B", "1", "visible", "taxable", "1",
          "", "", "", "", "", "", "", ""]]
        [["", "simple", "X", "NEW", "1", "visible", "taxable", "1",
          "", "", "", "", "", "", "", ""]]).map (skuAt 2)).count "X" = 1 := by
  exact ⟨by decide, by decide⟩

/-- Witness for C1 (amended): a two-row catalog where SKU `X` occurs exactly
once, at position 0; the merge overwrites position 0 in place (`Name`
becomes `NEW`), leaves position 1 untouched, and an incoming row with a
fresh SKU is appended at the end. -/
theorem catalog_upsert_merge_witness :
    mergeMaster CSV_HEADERS
        [["", "simple", "X", "A", "1", "visible", "taxable", "1",
          "", "", "", "", "", "", "", ""],
         ["", "simple", "Y", "C", "1", "visible", "taxable", "1",
          "", "", "", "", "", "", "", ""]]
        [["", "simple", "X", "NEW", "1", "visible", "taxable", "1",
          "", "", "", "", "", "", "", ""]] =
      [["", "simple", "X", "NEW", "1", "visible", "taxable", "1",
        "", "", "", "", "", "", "", ""],
       ["", "simple", "Y", "C", "1", "visible", "taxable", "1",
        "", "", "", "", "", "", "", ""]] ∧
    mergeMaster CSV_HEADERS
        [["", "simple", "X", "A", "1", "visible", "taxable", "1",
          "", "", "", "", "", "", "", ""]]
        [["", "simple", "Z", "D", "1", "visible", "taxable", "1",
          "", "", "", "", "", "", "", ""]] =
      [["", "simple", "X", "A", "1", "visible", "taxable", "1",
        "", "", "", "", "", "", "", ""],
       ["", "simple", "Z", "D", "1", "visible", "taxable", "1",
        "", "", "", "", "", "", "", ""]] := by
  constructor
  · have h := (catalog_upsert_merge
      [["", "simple", "X", "A", "1", "visible", "taxable", "1",
        "", "", "", "", "", "", "", ""],
       ["", "simple", "Y", "C", "1", "visible", "taxable", "1",
        "", "", "", "", "", "", "", ""]]
      ["", "simple", "X", "NEW", "1", "visible", "taxable", "1",
       "", "", "", "", "", "", "", ""]).1 0 (by decide) (by decide) (by decide)
      (by
        intro j hj hne
        have hj2 : j < 2 := by simpa using hj
        interval_cases j
        · exact absurd rfl hne
        · decide)
    exact h.1.trans (by decide)
  · have h := (catalog_upsert_merge
      [["", "simple", "X", "A", "1", "visible", "taxable", "1",
        "", "", "", "", "", "", "", ""]]
      ["", "simple", "Z", "D", "1", "visible", "taxable", "1",
       "", "", "", "", "", "", "", ""]).2
      (Or.inr (by
        intro j hj
        have hj2 : j < 1 := by simpa using hj
        interval_cases j
        · decide))
    exact h.trans (by decide)

/-- C5 (amended).  Duplicate-SKU indexing: the SKU→position index binds each
position in file order, so a later duplicate *overwrites* an earlier binding
— the index maps a SKU to its LAST occurrence, and an incoming row with that
SKU overwrites the last of the duplicates, leaving every earlier duplicate
untouched.  (The claim's "first occurrence wins" is refuted at a concrete
file by `dup_sku_first_cex`.) -/
theorem dup_sku_index_last (existing : List (List String)) (row : List String)
    (i : Nat) (hs : skuAt 2 (padTo 16 row) ≠ "")
    (hi : i < (existing.map (padTo 16)).length)
    (hocc : skuAt 2 ((existing.map (padTo 16)).getD i []) = skuAt 2 (padTo 16 row))
    (hafter : ∀ j, i < j → j < (existing.map (padTo 16)).length →
       skuAt 2 ((existing.map (padTo 16)).getD j []) ≠ skuAt 2 (padTo 16 row)) :
    buildIndex 2 (existing.map (padTo 16)) (skuAt 2 (padTo 16 row)) = some i ∧
    mergeMaster CSV_HEADERS existing [row] =
      (existing.map (padTo 16)).set i (padTo 16 row) ∧
    ∀ j, j < i → (mergeMaster CSV_HEADERS existing [row]).getD j [] =
      (existing.map (padTo 16)).getD j [] := by
  have hlast : lastOcc 2 (skuAt 2 (padTo 16 row)) (existing.map (padTo 16)) =
      some i := by
    refine lastOcc_eq_some 2 _ _ i hi hs
      ⟨by rw [padded_getD_length existing i hi]; omega, hocc⟩ ?_
    intro j hij hj hc
    exact hafter j hij hj hc.2
  have hidx : buildIndex 2 (existing.map (padTo 16)) (skuAt 2 (padTo 16 row)) =
      some i := by rw [buildIndex_lastOcc, hlast]
  have hmerge : mergeMaster CSV_HEADERS existing [row] =
      (existing.map (padTo 16)).set i (padTo 16 row) := by
    rw [merge_single, if_pos hs, hidx]
  refine ⟨hidx, hmerge, ?_⟩
  intro j hji
  rw [hmerge, List.getD_eq_getElem?_getD, List.getD_eq_getElem?_getD,
      List.getElem?_set_ne (by omega)]

/-- Counterexample to C5 as stated: with two existing rows carrying SKU `X`
(Names `A` then `B`), the incoming `X`/`NEW` row overwrites the SECOND
duplicate, not the first — the merge keeps row 0 (`A`) and replaces row 1,
whereas the claim predicts `[NEW, B]`.  The index itself maps `X` to
position 1, the last occurrence. -/
theorem dup_sku_first_cex :
    mergeMaster CSV_HEADERS
        [["", "simple", "X", "A", "1", "visible", "taxable", "1",
          "", "", "", "", "", "", "", ""],
         ["", "simple", "X", "B", "1", "visible", "taxable", "1",
          "", "", "", "", "", "", "", ""]]
        [["", "simple", "X", "NEW", "1", "visible", "taxable", "1",
          "", "", "", "", "", "", "", ""]] =
      [["", "simple", "X", "A", "1", "visible", "taxable", "1",
        "", "", "", "", "", "", "", ""],
       ["", "simple", "X", "NEW", "1", "visible", "taxable", "1",
        "", "", "", "", "", "", "", ""]] ∧
    mergeMaster CSV_HEADERS
        [["", "simple", "X", "A", "1", "visible", "taxable", "1",
          "", "", "", "", "", "", "", ""],
         ["", "simple", "X", "B", "1", "visible", "taxable", "1",
          "", "", "", "", "", "", "", ""]]
        [["", "simple", "X", "NEW", "1", "visible", "taxable", "1",
          "", "", "", "", "", "", "", ""]] ≠
      [["", "simple", "X", "NEW", "1", "visible", "taxable", "1",
        "", "", "", "", "", "", "", ""],
       ["", "simple", "X", "B", "1", "visible", "taxable", "1",
        "", "", "", "", "", "", "", ""]] ∧
    buildIndex 2
      [["", "simple", "X", "A", "1", "visible", "taxable", "1",
        "", "", "", "", "", "", "", ""],
       ["", "simple", "X", "B", "1", "visible", "taxable", "1",
        "", "", "", "", "", "", "", ""]] "X" = some 1 := by
  exact ⟨by decide, by decide, by decide⟩

/-- Witness for C5 (amended): `dup_sku_index_last` applied to the duplicate
file of the counterexample, with `i = 1` the last occurrence of `X`. -/
theorem dup_sku_index_last_witness :
    buildIndex 2 ((
      [["", "simple", "X", "A", "1", "visible", "taxable", "1",
        "", "", "", "", "", "", "", ""],
       ["", "simple", "X", "B", "1", "visible", "taxable", "1",
        "", "", "", "", "", "", "", ""]] : List (List String)).map (padTo 16))
      (skuAt 2 (padTo 16
        ["", "simple", "X", "NEW", "1", "visible", "taxable", "1",
         "", "", "", "", "", "", "", ""])) = some 1 :=
  (dup_sku_index_last
    [["", "simple", "X", "A", "1", "visible", "taxable", "1",
      "", "", "", "", "", "", "", ""],
     ["", "simple", "X", "B", "1", "visible", "taxable", "1",
      "", "", "", "", "", "", "", ""]]
    ["", "simple", "X", "NEW", "1", "visible", "taxable", "1",
     "", "", "", "", "", "", "", ""] 1 (by decide) (by decide) (by decide)
    (fun j hj1 hj2 => False.elim (by
      have h2 : j < 2 := by simpa using hj2
      omega))).1

/-- C2.  Upload dedup (idempotence of the content-addressed cache): for two
files with identical byte content `c` — hash not yet cached and the upload
POST succeeding — exactly one POST carrying `c` is issued to the
media-creation endpoint during the run; the second file is answered from the
cache entry written by the first, with no network call, and both resolve to
the same URL.  And since the cache is persisted after every upload, a second
run started from the returned cache issues no POST at all for a third file
with that same content, which still resolves to the same URL. -/
theorem upload_dedup (dir dir2 : String → Option String) (sha1 : String → String)
    (net : String → Option (String × String)) (title f1 f2 f3 c mid url : String)
    (cache0 : String → Option CacheEntry)
    (h1 : f1 ≠ "") (h2 : f2 ≠ "") (h3 : f3 ≠ "")
    (hd1 : dir f1 = some c) (hd2 : dir f2 = some c) (hd3 : dir2 f3 = some c)
    (hc0 : cache0 (sha1 c) = none) (hnet : net c = some (mid, url)) :
    (upload_jpgs_to_wp dir sha1 net title [f1, f2] cache0).uploadPosts = [c] ∧
    (upload_jpgs_to_wp dir sha1 net title [f1, f2] cache0).out f1 = some url ∧
    (upload_jpgs_to_wp dir sha1 net title [f1, f2] cache0).out f2 = some url ∧
    (upload_jpgs_to_wp dir2 sha1 net title [f3]
        (upload_jpgs_to_wp dir sha1 net title [f1, f2] cache0).cache).uploadPosts
      = [] ∧
    (upload_jpgs_to_wp dir2 sha1 net title [f3]
        (upload_jpgs_to_wp dir sha1 net title [f1, f2] cache0).cache).out f3
      = some url := by
  refine ⟨?_, ?_, ?_, ?_, ?_⟩ <;>
    simp [upload_jpgs_to_wp, uploadStep, fupd, h1, h2, h3, hd1, hd2, hd3,
      hc0, hnet, ite_self]

/-- Witness for C2: a concrete directory holding two identically-filled files
`a.jpg` and `b.jpg` (content `IMG`), the identity hash, an always-succeeding
network, and an empty initial cache: one POST, both URLs equal, and a second
run over `c.jpg` with the persisted cache POSTs nothing. -/
theorem upload_dedup_witness :
    (upload_jpgs_to_wp
        (fun n => if n = "a.jpg" ∨ n = "b.jpg" then some "IMG" else none)
        (fun c => c)
        (fun c => if c = "IMG" then some ("7", "https://site/m/a.jpg") else none)
        "T" ["a.jpg", "b.jpg"] (fun _ => none)).uploadPosts = ["IMG"] ∧
    (upload_jpgs_to_wp
        (fun n => if n = "a.jpg" ∨ n = "b.jpg" then some "IMG" else none)
        (fun c => c)
        (fun c => if c = "IMG" then some ("7", "https://site/m/a.jpg") else none)
        "T" ["a.jpg", "b.jpg"] (fun _ => none)).out "b.jpg" =
      some "https://site/m/a.jpg" ∧
    (upload_jpgs_to_wp
        (fun n => if n = "c.jpg" then some "IMG" else none)
        (fun c => c)
        (fun c => if c = "IMG" then some ("7", "https://site/m/a.jpg") else none)
        "T" ["c.jpg"]
        (upload_jpgs_to_wp
          (fun n => if n = "a.jpg" ∨ n = "b.jpg" then some "IMG" else none)
          (fun c => c)
          (fun c => if c = "IMG" then some ("7", "https://site/m/a.jpg") else none)
          "T" ["a.jpg", "b.jpg"] (fun _ => none)).cache).uploadPosts = [] := by
  have h := upload_dedup
    (fun n => if n = "a.jpg" ∨ n = "b.jpg" then some "IMG" else none)
    (fun n => if n = "c.jpg" then some "IMG" else none)
    (fun c => c)
    (fun c => if c = "IMG" then some ("7", "https://site/m/a.jpg") else none)
    "T" "a.jpg" "b.jpg" "c.jpg" "IMG" "7" "https://site/m/a.jpg"
    (fun _ => none)
    (by decide) (by decide) (by decide)
    (by decide) (by decide) (by decide)
    rfl (by decide)
  exact ⟨h.1, h.2.2.1, h.2.2.2.1⟩

/-- The dedup loop, started from any consistent accumulator, produces the
same URL sequence as the first-seen fold over the successfully extracted
URLs. -/
theorem dedup_loop_gen (elems : List (Option String × String)) :
    ∀ (seen : List String) (items : List ImageMeta),
    seen = items.map ImageMeta.url →
    ((elems.foldl (fun (acc : List String × List ImageMeta) e =>
        match e.1 with
        | none => acc
        | some url =>
          if url = "" ∨ acc.1.contains url then acc
          else (acc.1 ++ [url],
                acc.2 ++ [⟨url, pyTrim e.2, pathBasename (urlPath url)⟩]))
      (seen, items)).2).map ImageMeta.url =
    (elems.filterMap (fun e => e.1.bind (fun u => if u = "" then none else some u))).foldl
      (fun acc u => if acc.contains u then acc else acc ++ [u]) seen := by
  induction elems with
  | nil =>
    intro seen items h
    simpa using h.symm
  | cons e es ih =>
    intro seen items h
    rw [List.foldl_cons, List.filterMap_cons]
    cases he : e.1 with
    | none =>
      exact ih seen items h
    | some url =>
      dsimp only
      simp only [Option.some_bind]
      by_cases hu : url = ""
      · rw [if_pos (Or.inl hu), if_pos hu]
        exact ih seen items h
      · rw [if_neg hu]
        dsimp only
        by_cases hseen : seen.contains url
        · rw [if_pos (Or.inr hseen), List.foldl_cons, if_pos hseen]
          exact ih seen items h
        · rw [if_neg (by
              intro hor
              rcases hor with h1 | h1
              · exact hu h1
              · exact hseen h1),
            List.foldl_cons, if_neg hseen]
          refine ih (seen ++ [url]) (items ++ [⟨url, pyTrim e.2,
            pathBasename (urlPath url)⟩]) ?_
          rw [List.map_append, ← h]
          rfl

/-- The first-seen fold appends a sublist of its input after the
accumulator. -/
theorem dfs_fold_shape (l : List String) :
    ∀ acc : List String, ∃ l2,
      l.foldl (fun (acc : List String) u =>
          if acc.contains u then acc else acc ++ [u]) acc
        = acc ++ l2 ∧ l2.Sublist l := by
  induction l with
  | nil => intro acc; exact ⟨[], by simp, List.nil_sublist _⟩
  | cons u rest ih =>
    intro acc
    by_cases hc : acc.contains u
    · obtain ⟨l2, he, hs⟩ := ih acc
      rw [List.foldl_cons, if_pos hc]
      exact ⟨l2, he, hs.cons _⟩
    · obtain ⟨l2, he, hs⟩ := ih (acc ++ [u])
      rw [List.foldl_cons, if_neg hc]
      refine ⟨u :: l2, ?_, List.Sublist.cons₂ _ hs⟩
      rw [he, List.append_assoc]
      rfl

/-- The first-seen fold preserves freedom from duplicates. -/
theorem dfs_fold_nodup (l : List String) :
    ∀ acc : List String, acc.Nodup →
      (l.foldl (fun (acc : List String) u =>
          if acc.contains u then acc else acc ++ [u]) acc).Nodup := by
  induction l with
  | nil => intro acc h; simpa using h
  | cons u rest ih =>
    intro acc h
    by_cases hc : acc.contains u
    · rw [List.foldl_cons, if_pos hc]
      exact ih acc h
    · rw [List.foldl_cons, if_neg hc]
      refine ih _ ?_
      rw [List.nodup_append]
      refine ⟨h, List.nodup_singleton _, ?_⟩
      intro a ha hb
      rw [List.mem_singleton] at hb
      subst hb
      exact hc (List.elem_iff.2 ha)

/-- Nothing is dropped by the first-seen fold except repeats: every member of
the input (or of the accumulator) is in the result. -/
theorem dfs_fold_mem (l : List String) :
    ∀ (acc : List String) (u : String), (u ∈ l ∨ u ∈ acc) →
      u ∈ l.foldl (fun (acc : List String) u =>
          if acc.contains u then acc else acc ++ [u]) acc := by
  induction l with
  | nil =>
    intro acc u h
    rcases h with h | h
    · cases h
    · simpa using h
  | cons v rest ih =>
    intro acc u h
    by_cases hc : acc.contains v
    · rw [List.foldl_cons, if_pos hc]
      refine ih acc u ?_
      rcases h with h | h
      · rcases List.mem_cons.1 h with rfl | h
        · exact Or.inr (List.elem_iff.1 hc)
        · exact Or.inl h
      · exact Or.inr h
    · rw [List.foldl_cons, if_neg hc]
      refine ih _ u ?_
      rcases h with h | h
      · rcases List.mem_cons.1 h with rfl | h
        · exact Or.inr (by simp)
        · exact Or.inl h
      · exact Or.inr (by simp [h])

/-- Each loop iteration of the converter records exactly one name — a real
one on success, `""` on failure — so positions stay aligned. -/
theorem convert_step_names (fetchOk : String → Bool) (urls : List String) :
    ∀ st : ConvertResult,
      (urls.foldl (convertStep fetchOk) st).names.length =
        st.names.length + urls.length := by
  induction urls with
  | nil => intro st; simp
  | cons u rest ih =>
    intro st
    have hstep : (convertStep fetchOk st u).names.length = st.names.length + 1 := by
      unfold convertStep
      by_cases hf : fetchOk u
      · simp [hf]
      · simp [hf]
    rw [List.foldl_cons, ih, hstep, List.length_cons]
    omega

/-- The color fold's key list evolves exactly as the first-seen fold over the
per-image recognised colors. -/
theorem colorFold_keys_gen (slug : String) (meta : List ImageMeta) :
    ∀ (acc : List (String × String) × List (String × String)),
    ((meta.foldl (fun acc it =>
        match extract_color_for_image it slug with
        | (some c, lab) =>
            if c ≠ "" ∧ ¬ (acc.1.map Prod.fst).contains c then
              (acc.1 ++ [(c, it.url)],
               acc.2 ++ [(c, match lab with
                 | some l => if l ≠ "" then l else pyTitle (pyReplace c "-" " ")
                 | none => pyTitle (pyReplace c "-" " "))])
            else acc
        | (none, _) => acc) acc).1).map Prod.fst =
    (meta.filterMap (fun it =>
        match extract_color_for_image it slug with
        | (some c, _) => if c = "" then none else some c
        | (none, _) => none)).foldl
      (fun acc u => if acc.contains u then acc else acc ++ [u])
      (acc.1.map Prod.fst) := by
  induction meta with
  | nil => intro acc; rfl
  | cons it rest ih =>
    intro acc
    rw [List.foldl_cons, List.filterMap_cons]
    cases hx : extract_color_for_image it slug with
    | mk copt lab =>
      cases copt with
      | none =>
        exact ih acc
      | some c =>
        dsimp only
        by_cases hc : c = ""
        · rw [if_neg (fun hcond => hcond.1 hc), if_pos hc]
          exact ih acc
        · rw [if_neg hc]
          dsimp only
          by_cases hm : (acc.1.map Prod.fst).contains c
          · rw [if_neg (fun hcond => hcond.2 hm), List.foldl_cons, if_pos hm]
            exact ih acc
          · rw [if_pos ⟨hc, hm⟩, List.foldl_cons, if_neg hm]
            have := ih (acc.1 ++ [(c, it.url)],
              acc.2 ++ [(c, match lab with
                | some l => if l ≠ "" then l else pyTitle (pyReplace c "-" " ")
                | none => pyTitle (pyReplace c "-" " "))])
            rw [this, List.map_append]
            rfl

/-- C7.  Order preservation through every stage: the collection loop
deduplicates candidate URLs by exact string equality keeping only the first
occurrence (its URL sequence is exactly the first-seen fold over the
extracted URLs); that sequence is duplicate-free, a sublist of the extraction
order (no reordering), and retains every extracted URL (nothing but repeats
is dropped); conversion emits one positional name per URL (failures recorded
as `""`, alignment preserved); the gallery field's list filters the
transformed URLs in place, a sublist of the transformed sequence — dropping
recorded failures only, never reordering or re-deduplicating; and variant
detection keys its colors by the same first-seen fold over the images in
gallery order. -/
theorem order_preservation :
    (∀ elems, (dedupItems elems).map ImageMeta.url =
       dedupFirstSeen (elems.filterMap
         (fun e => e.1.bind (fun u => if u = "" then none else some u)))) ∧
    (∀ l, (dedupFirstSeen l).Nodup) ∧
    (∀ l, (dedupFirstSeen l).Sublist l) ∧
    (∀ l u, u ∈ l → u ∈ dedupFirstSeen l) ∧
    (∀ fetchOk urls dir0,
       (download_and_convert_to_jpg fetchOk urls dir0).names.length = urls.length) ∧
    (∀ (all_images : List String) (tr : String → String),
       ((all_images.map tr).filter (fun t => t ≠ "")).Sublist (all_images.map tr)) ∧
    (∀ meta slug, (colorFold meta slug).1.map Prod.fst =
       dedupFirstSeen (meta.filterMap (fun it =>
         match extract_color_for_image it slug with
         | (some c, _) => if c = "" then none else some c
         | (none, _) => none))) := by
  refine ⟨?_, ?_, ?_, ?_, ?_, ?_, ?_⟩
  · intro elems
    exact dedup_loop_gen elems [] [] rfl
  · intro l
    exact dfs_fold_nodup l [] List.nodup_nil
  · intro l
    obtain ⟨l2, he, hs⟩ := dfs_fold_shape l []
    unfold dedupFirstSeen
    rw [he]
    simpa using hs
  · intro l u hu
    exact dfs_fold_mem l [] u (Or.inl hu)
  · intro fetchOk urls dir0
    unfold download_and_convert_to_jpg
    rw [convert_step_names]
    simp
  · intro all_images tr
    exact List.filter_sublist _
  · intro meta slug
    exact colorFold_keys_gen slug meta ([], [])

/-- Witness for C7: the membership part of `order_preservation` applied at a
concrete URL list — `u2` survives the first-seen dedup of
`[u1, u1, u2, u1]`. -/
theorem order_preservation_witness :
    "u2" ∈ dedupFirstSeen ["u1", "u1", "u2", "u1"] :=
  order_preservation.2.2.2.1 ["u1", "u1", "u2", "u1"] "u2" (by decide)

/-- The fuel-based digit renderer agrees with `Nat.digits` (big-endian) for
any sufficient fuel. -/
theorem decDigits_digits : ∀ (fuel n : Nat), 0 < n → n ≤ fuel →
    decDigits fuel n = ((Nat.digits 10 n).map digitChar).reverse := by
  intro fuel
  induction fuel with
  | zero => intro n h1 h2; omega
  | succ f ih =>
    intro n h1 h2
    unfold decDigits
    by_cases hn : n < 10
    · rw [if_pos hn, Nat.digits_def' (by norm_num) h1, Nat.div_eq_of_lt hn]
      simp [Nat.mod_eq_of_lt hn]
    · rw [if_neg hn, ih (n / 10) (by omega) (by omega),
          Nat.digits_def' (by norm_num) h1]
      simp

/-- Digit characters are pairwise distinct below the base. -/
theorem digitChar_injOn : ∀ d1, d1 < 10 → ∀ d2, d2 < 10 →
    digitChar d1 = digitChar d2 → d1 = d2 := by decide

/-- `Char.toLower` fixes every digit character. -/
theorem digitChar_lower : ∀ d, d < 10 → Char.toLower (digitChar d) = digitChar d := by
  decide

/-- Mapping `digitChar` over digit lists is injective. -/
theorem map_digitChar_inj : ∀ (l1 l2 : List Nat), (∀ d ∈ l1, d < 10) →
    (∀ d ∈ l2, d < 10) → l1.map digitChar = l2.map digitChar → l1 = l2 := by
  intro l1
  induction l1 with
  | nil =>
    intro l2 _ _ h
    cases l2 with
    | nil => rfl
    | cons b t2 => simp at h
  | cons a t ih =>
    intro l2 hb1 hb2 h
    cases l2 with
    | nil => simp at h
    | cons b t2 =>
      simp only [List.map_cons, List.cons.injEq] at h
      rw [digitChar_injOn a (hb1 a (by simp)) b (hb2 b (by simp)) h.1,
          ih t2 (fun d hd => hb1 d (by simp [hd])) (fun d hd => hb2 d (by simp [hd])) h.2]

/-- Decimal rendering is injective on positive numbers. -/
theorem decimalStr_inj (m n : Nat) (hm : 0 < m) (hn : 0 < n)
    (h : decimalStr m = decimalStr n) : m = n := by
  unfold decimalStr at h
  rw [if_neg (by omega), if_neg (by omega),
      decDigits_digits m m hm le_rfl, decDigits_digits n n hn le_rfl] at h
  have h2 := congrArg String.data h
  have h3 := List.reverse_injective h2
  have h4 := map_digitChar_inj _ _
    (fun d hd => Nat.digits_lt_base (by norm_num) hd)
    (fun d hd => Nat.digits_lt_base (by norm_num) hd) h3
  have h5 := congrArg (Nat.ofDigits 10) h4
  rw [Nat.ofDigits_digits, Nat.ofDigits_digits] at h5
  exact_mod_cast h5

/-- The numbered candidates, in source order, are
`base ++ "-x" ++ str(i) ++ ext` for `i = 1, 2, …`. -/
theorem candName_x (base ext : String) (k : Nat) :
    candName base ext (k + 703) = base ++ "-x" ++ decimalStr (k + 1) ++ ext := by
  have h : candName base ext (k + 703) =
      (if k + 702 < 26 then base ++ "-" ++ ⟨[Char.ofNat (97 + (k + 702))]⟩ ++ ext
       else if k + 702 < 702 then
         base ++ "-" ++ ⟨[Char.ofNat (97 + (k + 702 - 26) / 26),
                          Char.ofNat (97 + (k + 702 - 26) % 26)]⟩ ++ ext
       else base ++ "-x" ++ decimalStr (k + 702 - 701) ++ ext) := rfl
  rw [h, if_neg (by omega), if_neg (by omega),
      show k + 702 - 701 = k + 1 from by omega]

/-- Case folding distributes over string concatenation. -/
theorem lowerName_append (a b : String) :
    lowerName (a ++ b) = lowerName a ++ lowerName b := by
  show (⟨((a ++ b).data).map Char.toLower⟩ : String) =
    ⟨a.data.map Char.toLower ++ b.data.map Char.toLower⟩
  rw [String.data_append, List.map_append]

/-- A list each of whose members a function fixes is fixed by the map. -/
theorem map_self_eq (f : Char → Char) :
    ∀ l : List Char, (∀ c ∈ l, f c = c) → l.map f = l := by
  intro l
  induction l with
  | nil => intro; rfl
  | cons c t ih =>
    intro h
    rw [List.map_cons, h c (by simp), ih (fun x hx => h x (by simp [hx]))]

/-- Case folding fixes a string all of whose characters it fixes. -/
theorem lowerName_eq_self_of (s : String)
    (h : ∀ c ∈ s.data, Char.toLower c = c) : lowerName s = s := by
  show (⟨s.data.map Char.toLower⟩ : String) = s
  rw [map_self_eq _ _ h]

/-- Every character a fuelled digit rendering emits is a digit character. -/
theorem decDigits_lower : ∀ fuel n c, c ∈ decDigits fuel n →
    Char.toLower c = c := by
  intro fuel
  induction fuel with
  | zero => intro n c h; cases h
  | succ f ih =>
    intro n c h
    unfold decDigits at h
    by_cases hn : n < 10
    · rw [if_pos hn, List.mem_singleton] at h
      subst h
      exact digitChar_lower n hn
    · rw [if_neg hn, List.mem_append] at h
      rcases h with h | h
      · exact ih _ c h
      · rw [List.mem_singleton] at h
        subst h
        exact digitChar_lower _ (Nat.mod_lt _ (by norm_num))

/-- Case folding fixes decimal renderings. -/
theorem lowerName_decimalStr (n : Nat) :
    lowerName (decimalStr n) = decimalStr n := by
  apply lowerName_eq_self_of
  intro c hc
  unfold decimalStr at hc
  by_cases hn : n = 0
  · rw [if_pos hn] at hc
    have : c = '0' := by simpa using hc
    subst this
    decide
  · rw [if_neg hn] at hc
    exact decDigits_lower n n c hc

/-- The case-folded numbered candidates are pairwise distinct. -/
theorem lowerCand_x_inj (base ext : String) :
    Function.Injective (fun k => lowerName (candName base ext (k + 703))) := by
  intro k1 k2 h
  simp only [candName_x, lowerName_append, lowerName_decimalStr,
    show lowerName "-x" = "-x" from by decide] at h
  have h2 := congrArg String.data h
  simp only [String.data_append] at h2
  have h3 := List.append_cancel_right h2
  have h4 := List.append_cancel_left h3
  have h5 : decimalStr (k1 + 1) = decimalStr (k2 + 1) := by
    show (⟨(decimalStr (k1 + 1)).data⟩ : String) = ⟨(decimalStr (k2 + 1)).data⟩
    rw [h4]
  have := decimalStr_inj _ _ (by omega) (by omega) h5
  omega

/-- Pigeonhole: among the first `used.length + 704` candidates one is free,
because the `used.length + 1` numbered candidates alone are pairwise
distinct and `used` cannot hold them all. -/
theorem unique_name_exists (base ext : String) (used : List String) :
    ∃ k ∈ List.range (used.length + 704),
      ¬ used.contains (lowerName (candName base ext k)) := by
  by_contra hall
  push_neg at hall
  have hsub : ((List.range (used.length + 1)).map
      (fun j => lowerName (candName base ext (j + 703)))) ⊆ used := by
    intro x hx
    obtain ⟨j, hj, rfl⟩ := List.mem_map.1 hx
    have hjr : j + 703 ∈ List.range (used.length + 704) := by
      rw [List.mem_range] at hj ⊢
      omega
    exact List.elem_iff.1 (hall _ hjr)
  have hnd : ((List.range (used.length + 1)).map
      (fun j => lowerName (candName base ext (j + 703)))).Nodup :=
    List.Nodup.map (lowerCand_x_inj base ext) (List.nodup_range _)
  have hle := (List.Nodup.subperm hnd hsub).length_le
  simp only [List.length_map, List.length_range] at hle
  omega

/-- `unique_name_no_digits` returns a candidate of the source's sequence
whose case-folded form is absent from `used`. -/
theorem unique_name_spec (base ext : String) (used : List String) :
    ¬ used.contains (lowerName (unique_name_no_digits base ext used)) ∧
    ∃ k, unique_name_no_digits base ext used = candName base ext k := by
  unfold unique_name_no_digits
  cases hf : (List.range (used.length + 704)).findSome? (fun k =>
      let cand := candName base ext k
      if used.contains (lowerName cand) then none else some cand) with
  | none =>
    exfalso
    obtain ⟨k, hk, hnc⟩ := unique_name_exists base ext used
    have h0 := List.findSome?_eq_none_iff.1 hf k hk
    dsimp only at h0
    rw [if_neg hnc] at h0
    cases h0
  | some c =>
    obtain ⟨k, hk, hck⟩ := List.exists_of_findSome?_eq_some hf
    dsimp only at hck
    by_cases hc : used.contains (lowerName (candName base ext k))
    · rw [if_pos hc] at hck
      cases hck
    · rw [if_neg hc] at hck
      cases hck
      exact ⟨hc, k, rfl⟩

/-- Every candidate ends in the extension, so names are never empty when the
extension is not. -/
theorem candName_append_ext (base ext : String) (k : Nat) :
    ∃ x, candName base ext k = x ++ ext := by
  match k with
  | 0 => exact ⟨base, rfl⟩
  | k + 1 =>
    unfold candName
    dsimp only
    by_cases h1 : k < 26
    · rw [if_pos h1]
      exact ⟨_, rfl⟩
    · rw [if_neg h1]
      by_cases h2 : k < 702
      · rw [if_pos h2]
        exact ⟨_, rfl⟩
      · rw [if_neg h2]
        exact ⟨_, rfl⟩

/-- With a nonempty extension the chosen unique name is nonempty. -/
theorem unique_name_ne_empty (base ext : String) (used : List String)
    (hext : ext ≠ "") : unique_name_no_digits base ext used ≠ "" := by
  obtain ⟨-, k, hk⟩ := unique_name_spec base ext used
  obtain ⟨x, hx⟩ := candName_append_ext base ext k
  rw [hk, hx]
  intro he
  have h2 := congrArg String.data he
  rw [String.data_append] at h2
  have h3 := (List.append_eq_nil.1 h2).2
  exact hext (congrArg String.mk h3)

/-- Invariant fold for the converter: if the nonempty names recorded so far
are case-insensitively distinct and all tracked in `used`, they stay so. -/
theorem convert_fold_nodup (fetchOk : String → Bool) (urls : List String) :
    ∀ st : ConvertResult,
      ((st.names.filter (fun n => n ≠ "")).map lowerName).Nodup →
      (∀ x ∈ (st.names.filter (fun n => n ≠ "")).map lowerName, x ∈ st.used) →
      (((urls.foldl (convertStep fetchOk) st).names.filter
          (fun n => n ≠ "")).map lowerName).Nodup := by
  induction urls with
  | nil =>
    intro st h1 _
    simpa using h1
  | cons u rest ih =>
    intro st h1 h2
    rw [List.foldl_cons]
    by_cases hf : fetchOk u
    · have hnames : (convertStep fetchOk st u).names =
          st.names ++ [unique_name_no_digits (convBase u) ".jpg" st.used] := by
        simp [convertStep, hf]
      have hused : (convertStep fetchOk st u).used =
          st.used ++ [lowerName (unique_name_no_digits (convBase u) ".jpg" st.used)] := by
        simp [convertStep, hf]
      have hne : unique_name_no_digits (convBase u) ".jpg" st.used ≠ "" :=
        unique_name_ne_empty _ _ _ (by decide)
      have hfresh : lowerName (unique_name_no_digits (convBase u) ".jpg" st.used)
          ∉ st.used := by
        intro hmem
        exact (unique_name_spec (convBase u) ".jpg" st.used).1 (List.elem_iff.2 hmem)
      have hfilter : (convertStep fetchOk st u).names.filter (fun n => n ≠ "") =
          st.names.filter (fun n => n ≠ "") ++
            [unique_name_no_digits (convBase u) ".jpg" st.used] := by
        rw [hnames, List.filter_append]
        congr 1
        rw [List.filter_cons, if_pos (decide_eq_true hne)]
        rfl
      refine ih (convertStep fetchOk st u) ?_ ?_
      · rw [hfilter, List.map_append, List.nodup_append]
        refine ⟨h1, by simp, ?_⟩
        intro x hx hy
        have hxu := h2 x hx
        have : x = lowerName (unique_name_no_digits (convBase u) ".jpg" st.used) := by
          simpa using hy
        rw [this] at hxu
        exact hfresh hxu
      · intro x hx
        rw [hfilter, List.map_append] at hx
        rw [hused]
        rcases List.mem_append.1 hx with hx | hx
        · exact List.mem_append.2 (Or.inl (h2 x hx))
        · exact List.mem_append.2 (Or.inr (by simpa using hx))
    · have hnames : (convertStep fetchOk st u).names = st.names ++ [""] := by
        simp [convertStep, hf]
      have hused : (convertStep fetchOk st u).used = st.used := by
        simp [convertStep, hf]
      have hfilter : (convertStep fetchOk st u).names.filter (fun n => n ≠ "") =
          st.names.filter (fun n => n ≠ "") := by
        rw [hnames, List.filter_append]
        simp
      refine ih (convertStep fetchOk st u) ?_ ?_
      · rwa [hfilter]
      · intro x hx
        rw [hfilter] at hx
        rw [hused]
        exact h2 x hx

/-- C6 (amended).  Within one run the converter never reuses a name: the
successfully assigned (nonempty) filenames of any run are pairwise distinct
even case-insensitively, each one drawn from the source's candidate sequence
`base.jpg`, `base-a.jpg` … `base-z.jpg`, `base-aa.jpg` … `base-zz.jpg`,
`base-x1.jpg`, `base-x2.jpg`, … as the first candidate free in this run's
`used` set.  The `used` set, however, starts empty on every run and is never
seeded from the directory, so the guarantee does not extend to files already
present on disk: a later run may overwrite an earlier run's file
(`convert_overwrite_cex`). -/
theorem convert_no_collision :
    (∀ (fetchOk : String → Bool) (urls : List String) (dir0 : List String),
      (((download_and_convert_to_jpg fetchOk urls dir0).names.filter
          (fun n => n ≠ "")).map lowerName).Nodup) ∧
    (∀ base ext used,
      ¬ used.contains (lowerName (unique_name_no_digits base ext used)) ∧
      ∃ k, unique_name_no_digits base ext used = candName base ext k) := by
  constructor
  · intro fetchOk urls dir0
    exact convert_fold_nodup fetchOk urls ⟨[], [], dir0, []⟩ (by simp) (by simp)
  · intro base ext used
    exact unique_name_spec base ext used

/-- Counterexample to C6 as stated: the directory already contains
`image.jpg` from an earlier run; a run converting one URL whose base reduces
to `image` assigns the name `image.jpg` again — a name that collides with
the pre-existing file, which the `open(..., "wb")` then truncates (the
`overwritten` log records it).  So "a file created by an earlier run is never
overwritten by a later run" is false. -/
theorem convert_overwrite_cex :
    (download_and_convert_to_jpg (fun _ => true)
        ["https://cdn.example.com/media/image-1.png"] ["image.jpg"]).names =
      ["image.jpg"] ∧
    (download_and_convert_to_jpg (fun _ => true)
        ["https://cdn.example.com/media/image-1.png"] ["image.jpg"]).overwritten =
      ["image.jpg"] ∧
    "image.jpg" ∈ (["image.jpg"] : List String) := by
  refine ⟨?_, ?_, by decide⟩ <;>
    · set_option maxRecDepth 100000 in decide

end ImagesCsv
